import Mathlib

/-!
A shallow embedding of the spirv-fuzz transformation engine (the fuzz pass of
SPIRV-Tools): the data model (module, function, block, instruction, constant
and type manager views), the FactManager irrelevance/dead-block subset, and the
transformation variants `TransformationAddLoopToCreateIntConstantSynonym`,
`TransformationFlattenConditionalBranch`, `TransformationMergeFunctionReturns`
and `TransformationReplaceIrrelevantId`, together with theorems settling the
specification claims about them.

Conventions:
* machine integers are `Nat` raw word values; sign-extension is explicit;
* fallible C++ paths (null-pointer dereference, out-of-bounds access, popping
  an empty overflow pool) are modelled by `Option`, with `none` for the
  undefined behaviour;
* external IR services that the source consumes as black boxes (dominance,
  post-dominance, the structured-CFG loop-merge-block and nesting-depth
  queries, the side-effect classification of instructions) are supplied as
  oracle parameters;
* repository helpers whose source is not part of this excerpt (fuzzerutil,
  the Transformation base class) are modelled from the specification and say
  so in their doc comments.
-/

namespace SpvFuzz

/-- The type manager's structural view of a type. -/
inductive Ty where
  | intT (width : Nat) (signed : Bool)
  | boolT
  | floatT (width : Nat)
  | voidT
  | vecT (elem : Ty) (count : Nat)
  | ptrT (pointee : Ty)
  | otherT (tag : Nat)
deriving DecidableEq, Repr

/-- `Type::AsInteger()`: the (width, signedness) of an integer type. -/
def Ty.asInteger : Ty → Option (Nat × Bool)
  | .intT w s => some (w, s)
  | _ => none

/-- `Type::AsVector()`: element type and component count of a vector type. -/
def Ty.asVector : Ty → Option (Ty × Nat)
  | .vecT e n => some (e, n)
  | _ => none

/-- `Type::AsPointer()` as a Boolean test. -/
def Ty.isPointer : Ty → Bool
  | .ptrT _ => true
  | _ => false

/-- `Type::AsVoid()` as a Boolean test. -/
def Ty.isVoid : Ty → Bool
  | .voidT => true
  | _ => false

/-- Erase signedness recursively (used to compare types up to sign). -/
def Ty.stripSign : Ty → Ty
  | .intT w _ => .intT w false
  | .vecT e n => .vecT e.stripSign n
  | .ptrT p => .ptrT p.stripSign
  | t => t

/-- A scalar constant (the component of a vector constant is always scalar).
`nullSC` stands for a scalar `OpConstantNull`, whose `AsIntConstant()` is null
even when its type is an integer type. -/
inductive ScalarConst where
  | intSC (width : Nat) (signed : Bool) (value : Nat)
  | boolSC (b : Bool)
  | nullSC (ty : Ty)
  | otherSC (ty : Ty)
deriving DecidableEq, Repr

/-- `Constant::AsIntConstant()` on a scalar: width, signedness, raw value. -/
def ScalarConst.asIntConstant : ScalarConst → Option (Nat × Bool × Nat)
  | .intSC w s v => some (w, s, v)
  | _ => none

/-- The constant manager's view of a declared constant.  Integer constants
carry their raw (unsigned word) value; `nullC` stands for `OpConstantNull`,
whose `AsIntConstant()` is null even when its type is an integer type. -/
inductive Constant where
  | intC (width : Nat) (signed : Bool) (value : Nat)
  | boolC (b : Bool)
  | vecC (elem : Ty) (components : List ScalarConst)
  | nullC (ty : Ty)
  | otherC (ty : Ty)
deriving DecidableEq, Repr

/-- `Constant::type()`. -/
def Constant.type : Constant → Ty
  | .intC w s _ => .intT w s
  | .boolC _ => .boolT
  | .vecC e cs => .vecT e cs.length
  | .nullC t => t
  | .otherC t => t

/-- `Constant::AsIntConstant()`: width, signedness and raw value. -/
def Constant.asIntConstant : Constant → Option (Nat × Bool × Nat)
  | .intC w s v => some (w, s, v)
  | _ => none

/-- `Constant::AsVectorConstant()`: the components. -/
def Constant.asVectorConstant : Constant → Option (List ScalarConst)
  | .vecC _ cs => some cs
  | _ => none

/-- View a constant as the single element of a component list (the scalar
branch of the componentwise equation check stores the constant itself). -/
def Constant.scalarView : Constant → ScalarConst
  | .intC w s v => .intSC w s v
  | .boolC b => .boolSC b
  | .vecC e cs => .otherSC (.vecT e cs.length)
  | .nullC t => .nullSC t
  | .otherC t => .otherSC t

/-- Two's-complement sign extension of a `w`-bit raw value to a
mathematical integer (`IntConstant::GetSignExtendedValue`). -/
def signExtend (w : Nat) (v : Nat) : Int :=
  if v % 2 ^ w < 2 ^ (w - 1) then ((v % 2 ^ w : Nat) : Int)
  else ((v % 2 ^ w : Nat) : Int) - 2 ^ w

/-- The opcodes the embedded transformations inspect.  `OpNamedBarrierInit`
stands for SPIR-V's named-barrier-initialization opcode. -/
inductive Opcode where
  | OpLabel
  | OpBranch
  | OpBranchConditional
  | OpSelectionMerge
  | OpLoopMerge
  | OpPhi
  | OpSelect
  | OpReturn
  | OpReturnValue
  | OpUndef
  | OpConstantDecl
  | OpTypeDecl
  | OpVariable
  | OpFunctionDecl
  | OpFunctionParameter
  | OpFunctionCall
  | OpStore
  | OpLoad
  | OpIAdd
  | OpControlBarrier
  | OpMemoryBarrier
  | OpNamedBarrierInit
  | OpMemoryNamedBarrier
  | OpTypeNamedBarrier
  | OpSampledImage
  | OpUnreachable
  | OpNop
deriving DecidableEq, Repr

/-- An instruction: opcode, optional type id and result id (0 = absent) and
the in-operand ids in order.  Non-id literal operands of the handled opcodes
(selection/loop control masks) are not represented. -/
structure Instruction where
  opcode : Opcode
  typeId : Nat
  resultId : Nat
  operands : List Nat
deriving DecidableEq, Repr

/-- `Instruction::HasResultId()`. -/
def Instruction.hasResultId (i : Instruction) : Bool := i.resultId ≠ 0

/-- `Instruction::IsBranch()`. -/
def Instruction.isBranch (i : Instruction) : Bool :=
  i.opcode = .OpBranch || i.opcode = .OpBranchConditional

/-- CFG successors derived from a terminator's operands. -/
def Instruction.successors : Instruction → List Nat
  | ⟨.OpBranch, _, _, ops⟩ => ops.take 1
  | ⟨.OpBranchConditional, _, _, ops⟩ => (ops.drop 1).take 2
  | _ => []

/-- A basic block: its label id and its instructions (label excluded, the
terminator last). -/
structure Block where
  labelId : Nat
  insts : List Instruction
deriving DecidableEq, Repr

/-- The `OpLabel` instruction a block's label stands for. -/
def Block.labelInst (b : Block) : Instruction := ⟨.OpLabel, 0, b.labelId, []⟩

/-- All instructions of a block including the label (`BasicBlock::ForEachInst`
visits the label too). -/
def Block.allInsts (b : Block) : List Instruction := b.labelInst :: b.insts

/-- `BasicBlock::terminator()`. -/
def Block.termInst (b : Block) : Option Instruction := b.insts.getLast?

/-- `BasicBlock::GetMergeInst()`: the instruction right before the terminator,
when it is a merge instruction. -/
def Block.mergeInst (b : Block) : Option Instruction :=
  match b.insts.reverse with
  | _ :: m :: _ =>
      if m.opcode = .OpSelectionMerge || m.opcode = .OpLoopMerge then some m else none
  | _ => none

/-- A function: its result id, its type id, formal parameters and blocks
(entry first). -/
structure FunctionIR where
  fnId : Nat
  typeId : Nat
  params : List Instruction
  blocks : List Block
deriving DecidableEq, Repr

/-- A module: global declarations (types, constants, variables), the type and
constant manager views, and the functions. -/
structure ModuleIR where
  typesValues : List Instruction
  types : List (Nat × Ty)
  constants : List (Nat × Constant)
  functions : List FunctionIR
deriving DecidableEq, Repr

/-- Association-list lookup used for the manager views. -/
def lookupA {α : Type} : List (Nat × α) → Nat → Option α
  | [], _ => none
  | (k, v) :: rest, id => if k = id then some v else lookupA rest id

/-- All result-id-carrying instructions of a function, its declaration and
parameters included. -/
def FunctionIR.defInsts (f : FunctionIR) : List Instruction :=
  ⟨.OpFunctionDecl, f.typeId, f.fnId, []⟩ :: f.params ++ f.blocks.flatMap Block.allInsts

/-- The def-use manager's `GetDef`: the defining instruction of an id. -/
def ModuleIR.getDef (m : ModuleIR) (id : Nat) : Option Instruction :=
  if id = 0 then none
  else (m.typesValues ++ m.functions.flatMap FunctionIR.defInsts).find?
    (fun i => i.resultId == id)

/-- Modelled from the spec (fuzzer_util.cpp is not part of this excerpt):
a fresh id is an identifier verified unused anywhere in the module. -/
def ModuleIR.isFreshId (m : ModuleIR) (id : Nat) : Bool := (m.getDef id).isNone

/-- Modelled from the spec (the Transformation base class is not part of this
excerpt): every claimed-fresh id must be undefined in the module and unique
within the instance's own fresh-id list; on success the id joins the set of
ids used by this transformation. -/
def checkIdIsFreshAndNotUsedByThisTransformation (m : ModuleIR) (id : Nat)
    (used : List Nat) : Bool × List Nat :=
  if m.isFreshId id && !(used.contains id) then (true, id :: used) else (false, used)

/-- `CFG::preds`: one entry per incoming edge, in block order. -/
def FunctionIR.predsOf (f : FunctionIR) (id : Nat) : List Nat :=
  f.blocks.flatMap (fun b =>
    match b.termInst with
    | some t => (t.successors.filter (fun s => s == id)).map (fun _ => b.labelId)
    | none => [])

/-- Find the block with the given label in a function (`CFG::block`). -/
def FunctionIR.findBlock (f : FunctionIR) (id : Nat) : Option Block :=
  f.blocks.find? (fun b => b.labelId == id)

/-- The first function containing a block with the given label, and that
block. -/
def findBlockInFuncs : List FunctionIR → Nat → Option (FunctionIR × Block)
  | [], _ => none
  | f :: rest, id =>
      match f.findBlock id with
      | some b => some (f, b)
      | none => findBlockInFuncs rest id

/-- Modelled from the spec (fuzzer_util.cpp is not part of this excerpt):
`MaybeFindBlock` returns the function and block with the given label, if any. -/
def ModuleIR.maybeFindBlock (m : ModuleIR) (id : Nat) : Option (FunctionIR × Block) :=
  findBlockInFuncs m.functions id

/-- The structured-CFG analysis's `IsMergeBlock`: some merge instruction in the
module names this block as its merge target. -/
def ModuleIR.isMergeBlock (m : ModuleIR) (id : Nat) : Bool :=
  m.functions.any (fun f => f.blocks.any (fun b =>
    match b.mergeInst with
    | some mi => mi.operands.headD 0 == id
    | none => false))

/-- Modelled from the spec (fuzzer_util.cpp is not part of this excerpt):
`MaybeGetIntegerConstant` finds a declared scalar integer constant with the
given single-word value, width and signedness. -/
def ModuleIR.maybeGetIntegerConstant (m : ModuleIR) (value width : Nat)
    (signed : Bool) : Option Nat :=
  (m.constants.find? (fun p =>
    match p.2 with
    | .intC w s v => w == width && s == signed && v == value
    | _ => false)).map Prod.fst

/-- Modelled from the spec (fuzzer_util.cpp is not part of this excerpt):
`MaybeGetBoolConstant` finds a declared `OpConstantTrue`/`OpConstantFalse`. -/
def ModuleIR.maybeGetBoolConstant (m : ModuleIR) (value : Bool) : Option Nat :=
  (m.constants.find? (fun p =>
    match p.2 with
    | .boolC b => b == value
    | _ => false)).map Prod.fst

/-- Modelled from the spec (fuzzer_util.cpp is not part of this excerpt):
`MaybeGetBoolType` finds the id of the Boolean type, if declared. -/
def ModuleIR.maybeGetBoolType (m : ModuleIR) : Option Nat :=
  (m.types.find? (fun p => p.2 == Ty.boolT)).map Prod.fst

/-- Modelled from the spec (fuzzer_util.cpp is not part of this excerpt):
`TypesAreEqualUpToSign` holds when both type ids are declared and their types
agree after erasing signedness. -/
def typesAreEqualUpToSign (m : ModuleIR) (t1 t2 : Nat) : Bool :=
  match lookupA m.types t1, lookupA m.types t2 with
  | some a, some b => a.stripSign == b.stripSign
  | _, _ => false

/-! ## TransformationAddLoopToCreateIntConstantSynonym -/

/-- The protobuf message of the loop-derived integer-constant-synonym
transformation. -/
structure LoopSynMsg where
  constant_id : Nat
  initial_val_id : Nat
  step_val_id : Nat
  num_iterations_id : Nat
  block_after_loop_id : Nat
  syn_id : Nat
  loop_id : Nat
  ctr_id : Nat
  temp_id : Nat
  eventual_syn_id : Nat
  incremented_ctr_id : Nat
  cond_id : Nat
  additional_block_id : Nat
deriving DecidableEq, Repr

/-- The componentwise check `C = I - S * N` over sign-extended values
(source lines 152-159).  The source indexes the initial-value and step
component vectors at the index of each constant component; a missing
component or a non-integer component is a null dereference (`none`). -/
def loopSynEquationHolds (n : Int) :
    List ScalarConst → List ScalarConst → List ScalarConst → Option Bool
  | [], _, _ => some true
  | c :: cs, i :: is2, s :: ss =>
      match c.asIntConstant, i.asIntConstant, s.asIntConstant with
      | some cv, some iv, some sv =>
          if signExtend cv.1 cv.2.2 ≠ signExtend iv.1 iv.2.2 - signExtend sv.1 sv.2.2 * n
          then some false
          else loopSynEquationHolds n cs is2 ss
      | _, _, _ => none
  | _ :: _, _, _ => none

/-- Source lines 111-190 of
`TransformationAddLoopToCreateIntConstantSynonym::IsApplicable`: the part
after the iteration-count value has been read.  (In the source this point is
only reached through a null `AsIntConstant()` dereference at line 112, so no
defined execution gets here; it is transcribed in full regardless.)  The
freshness checks of lines 175-189 are transcribed as in the source: their
results are computed and discarded. -/
def loopSynRest (m : ModuleIR) (msg : LoopSynMsg)
    (constant initial_val step_val : Constant)
    (num_iterations_value : Int) : Option Bool :=
  if num_iterations_value ≤ 0 || num_iterations_value > 32 then some false
  else if (m.maybeGetIntegerConstant 0 32 true).isNone then some false
  else if (m.maybeGetIntegerConstant 1 32 true).isNone then some false
  else
    match (if constant.asIntConstant.isSome then
             some ([constant.scalarView], [initial_val.scalarView], [step_val.scalarView])
           else
             match constant.asVectorConstant, initial_val.asVectorConstant,
                 step_val.asVectorConstant with
             | some cs, some is2, some ss => some (cs, is2, ss)
             | _, _, _ => none) with
    | none => none
    | some (cs, is2, ss) =>
      match loopSynEquationHolds num_iterations_value cs is2 ss with
      | none => none
      | some eqHolds =>
        if !eqHolds then some false
        else
          -- Source lines 161-167: the found block is dereferenced without a
          -- null check.
          match m.maybeFindBlock msg.block_after_loop_id with
          | none => none
          | some (f, block) =>
            if (f.predsOf block.labelId).length ≠ 1 then some false
            else if m.isMergeBlock block.labelId then some false
            else
              let used1 := [msg.syn_id, msg.loop_id, msg.ctr_id, msg.temp_id,
                msg.eventual_syn_id, msg.incremented_ctr_id, msg.cond_id].foldl
                (fun u id => (checkIdIsFreshAndNotUsedByThisTransformation m id u).2) []
              let _ := if msg.additional_block_id ≠ 0 then
                  (checkIdIsFreshAndNotUsedByThisTransformation m
                    msg.additional_block_id used1).2
                else used1
              some true

/-- `TransformationAddLoopToCreateIntConstantSynonym::IsApplicable`
(source lines 49-191).  `none` models undefined behaviour (null-pointer
dereference).  Note the source's line 106 tests `num_iterations->AsIntConstant()`
without negation, and then line 112 dereferences `AsIntConstant()`. -/
def isApplicableLoopSyn (m : ModuleIR) (msg : LoopSynMsg) : Option Bool :=
  match lookupA m.constants msg.constant_id, lookupA m.constants msg.initial_val_id,
      lookupA m.constants msg.step_val_id with
  | some constant, some initial_val, some step_val =>
    if !constant.asIntConstant.isSome &&
        (!constant.asVectorConstant.isSome ||
          !(match constant.type.asVector with
            | some (e, _) => e.asInteger.isSome
            | none => false)) then some false
    else
      match (match constant with
             | .intC w _ _ => some w
             | .vecC e _ => e.asInteger.map Prod.fst
             | _ => none) with
      | none => none
      | some bit_width =>
        if bit_width > 64 then some false
        else
          match m.getDef msg.constant_id, m.getDef msg.initial_val_id,
              m.getDef msg.step_val_id with
          | some constant_def, some initial_val_def, some step_val_def =>
            if !typesAreEqualUpToSign m constant_def.typeId initial_val_def.typeId ||
                !typesAreEqualUpToSign m constant_def.typeId step_val_def.typeId
            then some false
            else
              match lookupA m.constants msg.num_iterations_id with
              | none => some false
              | some num_iterations =>
                if num_iterations.asIntConstant.isSome then some false
                else
                  match num_iterations.type.asInteger with
                  | none => none
                  | some wi =>
                    if wi.1 ≠ 32 then some false
                    else
                      match num_iterations.asIntConstant with
                      | none => none
                      | some niv =>
                        loopSynRest m msg constant initial_val step_val
                          (signExtend 32 niv.2.2)
          | _, _, _ => none
  | _, _, _ => some false

/-- A module meeting all the loop-synonym preconditions. -/
def loopSynModule : ModuleIR :=
  { typesValues := [⟨.OpTypeDecl, 0, 1, []⟩, ⟨.OpTypeDecl, 0, 2, []⟩,
      ⟨.OpTypeDecl, 0, 3, []⟩,
      ⟨.OpConstantDecl, 1, 10, []⟩, ⟨.OpConstantDecl, 1, 11, []⟩,
      ⟨.OpConstantDecl, 1, 12, []⟩, ⟨.OpConstantDecl, 1, 13, []⟩,
      ⟨.OpConstantDecl, 1, 14, []⟩, ⟨.OpConstantDecl, 1, 15, []⟩],
    types := [(1, .intT 32 true), (2, .voidT), (3, .boolT)],
    constants := [(10, .intC 32 true 2), (11, .intC 32 true 14),
      (12, .intC 32 true 3), (13, .intC 32 true 4),
      (14, .intC 32 true 0), (15, .intC 32 true 1)],
    functions := [{ fnId := 5, typeId := 2, params := [],
                    blocks := [⟨20, [⟨.OpBranch, 0, 0, [21]⟩]⟩,
                               ⟨21, [⟨.OpReturn, 0, 0, []⟩]⟩] }] }

/-- A message for `loopSynModule` with pairwise-distinct genuinely fresh ids. -/
def loopSynMsgGood : LoopSynMsg :=
  ⟨10, 11, 12, 13, 21, 100, 101, 102, 103, 104, 105, 106, 107⟩

/-- `loopSynModule` with the iteration count replaced by a Boolean constant
(a constant whose `AsIntConstant()` is null and whose type has no `AsInteger`). -/
def loopSynModuleCrash : ModuleIR :=
  { loopSynModule with
    constants := [(10, .intC 32 true 2), (11, .intC 32 true 14),
      (12, .intC 32 true 3), (13, .boolC true),
      (14, .intC 32 true 0), (15, .intC 32 true 1)] }

/-- A message for `loopSynModuleCrash` whose fresh-id list repeats id 100 in
both the `syn_id` and `loop_id` slots. -/
def loopSynMsgDup : LoopSynMsg :=
  ⟨10, 11, 12, 13, 21, 100, 100, 102, 103, 104, 105, 106, 107⟩

/-- Insert into an unordered set modelled as a duplicate-free list. -/
def insertSet (id : Nat) (l : List Nat) : List Nat :=
  if l.contains id then l else id :: l

/-- The state of `IrrelevantValueFacts`: its two sets. -/
structure IrrelevantValueFacts where
  pointers_to_irrelevant_pointees_ids : List Nat
  irrelevant_ids : List Nat
deriving DecidableEq, Repr

/-- The empty fact store. -/
def IrrelevantValueFacts.emptyStore : IrrelevantValueFacts := ⟨[], []⟩

/-- `AddFact(FactPointeeValueIsIrrelevant)` (source lines 25-39): inserts the
pointer id into the pointee-irrelevant set. -/
def IrrelevantValueFacts.AddFactPointeeValueIsIrrelevant
    (s : IrrelevantValueFacts) (pointer_id : Nat) : IrrelevantValueFacts :=
  ⟨insertSet pointer_id s.pointers_to_irrelevant_pointees_ids, s.irrelevant_ids⟩

/-- `AddFact(FactIdIsIrrelevant)` (source lines 41-55): inserts the result id
into the irrelevant-id set. -/
def IrrelevantValueFacts.AddFactIdIsIrrelevant
    (s : IrrelevantValueFacts) (result_id : Nat) : IrrelevantValueFacts :=
  ⟨s.pointers_to_irrelevant_pointees_ids, insertSet result_id s.irrelevant_ids⟩

/-- `IrrelevantValueFacts::PointeeValueIsIrrelevant` (source lines 57-59). -/
def IrrelevantValueFacts.PointeeValueIsIrrelevant
    (s : IrrelevantValueFacts) (pointer_id : Nat) : Bool :=
  s.pointers_to_irrelevant_pointees_ids.contains pointer_id

/-- `IrrelevantValueFacts::IdIsIrrelevant` (source lines 61-63). -/
def IrrelevantValueFacts.IdIsIrrelevant
    (s : IrrelevantValueFacts) (id : Nat) : Bool :=
  s.irrelevant_ids.contains id

/-- `IrrelevantValueFacts::GetIrrelevantIds` (source lines 65-68). -/
def IrrelevantValueFacts.GetIrrelevantIds (s : IrrelevantValueFacts) : List Nat :=
  s.irrelevant_ids

/-- One `AddFact` call on the irrelevance store. -/
inductive FactOp where
  | pointeeIrrelevant (id : Nat)
  | idIrrelevant (id : Nat)
deriving DecidableEq, Repr

/-- Run a sequence of `AddFact` calls against a store. -/
def runFactOpsFrom (s : IrrelevantValueFacts) : List FactOp → IrrelevantValueFacts
  | [] => s
  | .pointeeIrrelevant id :: rest =>
      runFactOpsFrom (s.AddFactPointeeValueIsIrrelevant id) rest
  | .idIrrelevant id :: rest =>
      runFactOpsFrom (s.AddFactIdIsIrrelevant id) rest

/-- Run a sequence of `AddFact` calls against the empty store. -/
def runFactOps (ops : List FactOp) : IrrelevantValueFacts :=
  runFactOpsFrom IrrelevantValueFacts.emptyStore ops

/-- The `AddFact` preconditions (the asserts of source lines 30-36 and 46-52):
the id must be defined, of the stated pointer-ness, and in no synonym class.
The synonym classes are supplied by the data-synonym store's
`GetSynonymsForId`, an oracle here. -/
def factOpPrecondition (m : ModuleIR) (synonymsForId : Nat → List Nat) :
    FactOp → Bool
  | .pointeeIrrelevant id =>
      synonymsForId id == [] &&
      (match m.getDef id with
       | some d =>
           (match lookupA m.types d.typeId with
            | some t => t.isPointer
            | none => false)
       | none => false)
  | .idIrrelevant id =>
      synonymsForId id == [] &&
      (match m.getDef id with
       | some d =>
           (match lookupA m.types d.typeId with
            | some t => !t.isPointer
            | none => false)
       | none => false)

/-- A module with a non-pointer id 10 and a pointer-typed id 16, for
exercising the fact-store preconditions. -/
def factModule : ModuleIR :=
  { typesValues := [⟨.OpTypeDecl, 0, 1, []⟩, ⟨.OpTypeDecl, 0, 4, []⟩,
      ⟨.OpConstantDecl, 1, 10, []⟩, ⟨.OpVariable, 4, 16, []⟩],
    types := [(1, .intT 32 true), (4, .ptrT (.intT 32 true))],
    constants := [(10, .intC 32 true 7)],
    functions := [] }

/-- A structural reference to an instruction occurrence: the containing
block's label and the instruction's index in that block.  Models the
instruction-descriptor locator (instruction_descriptor.cpp is not part of
this excerpt, which the spec describes as locating a use structurally so it
survives id churn). -/
structure InstrRef where
  blockLabel : Nat
  instIdx : Nat
deriving DecidableEq, Repr

/-- Modelled from the spec: `FindInstruction` resolves a structural
instruction descriptor to the instruction it names, if any. -/
def ModuleIR.findInstruction (m : ModuleIR) (r : InstrRef) : Option Instruction :=
  (m.maybeFindBlock r.blockLabel).bind (fun p => p.2.insts[r.instIdx]?)

/-- The protobuf `IdUseDescriptor`. -/
structure IdUseDescriptor where
  id_of_interest : Nat
  enclosing_instruction : InstrRef
  in_operand_index : Nat
deriving DecidableEq, Repr

/-- Modelled from the spec (id_use_descriptor.cpp is not part of this
excerpt): resolve the enclosing instruction and check that its in-operand at
the descriptor's index is the id of interest. -/
def findInstructionContainingUse (m : ModuleIR) (d : IdUseDescriptor) :
    Option Instruction :=
  (m.findInstruction d.enclosing_instruction).bind (fun inst =>
    (inst.operands[d.in_operand_index]?).bind (fun v =>
      if v = d.id_of_interest then some inst else none))

/-- The protobuf message of `TransformationReplaceIrrelevantId`. -/
structure ReplaceIrrelevantIdMsg where
  id_use_descriptor : IdUseDescriptor
  replacement_id : Nat
deriving DecidableEq, Repr

/-- The context consumed by replace-irrelevant-id: the irrelevance facts, and
two fuzzerutil services modelled from the spec (fuzzer_util.cpp is not part
of this excerpt): `IdUseCanBeReplaced` (the operand position accepts an
arbitrary same-typed id) and `IdIsAvailableAtUse` (the replacement's
definition dominates the use point). -/
structure RICtx where
  facts : IrrelevantValueFacts
  idUseCanBeReplaced : InstrRef → Nat → Bool
  idIsAvailableAtUse : InstrRef → Nat → Nat → Bool

/-- `TransformationReplaceIrrelevantId::IsApplicable` (source lines 33-78).
`none` models the null dereference of a missing def or type. -/
def isApplicableReplaceIrrelevantId (m : ModuleIR) (ctx : RICtx)
    (msg : ReplaceIrrelevantIdMsg) : Option Bool :=
  if !(ctx.facts.IdIsIrrelevant msg.id_use_descriptor.id_of_interest) then some false
  else
    match findInstructionContainingUse m msg.id_use_descriptor with
    | none => some false
    | some _use_instruction =>
      match m.getDef msg.id_use_descriptor.id_of_interest with
      | none => none
      | some def_interest =>
        match m.getDef msg.replacement_id with
        | none => none
        | some def_replacement =>
          if def_interest.typeId ≠ def_replacement.typeId then some false
          else
            match lookupA m.types def_interest.typeId with
            | none => none
            | some t =>
              if t.isPointer then some false
              else if !(ctx.idUseCanBeReplaced
                  msg.id_use_descriptor.enclosing_instruction
                  msg.id_use_descriptor.in_operand_index) then some false
              else some (ctx.idIsAvailableAtUse
                  msg.id_use_descriptor.enclosing_instruction
                  msg.id_use_descriptor.in_operand_index msg.replacement_id)

/-- Apply `h` to the instruction list of the first block labelled `label`
(the C++ mutation edits one block object in place). -/
def updBlockInsts (label : Nat) (h : List Instruction → List Instruction) :
    List Block → List Block
  | [] => []
  | b :: rest =>
      if b.labelId == label then ⟨b.labelId, h b.insts⟩ :: rest
      else b :: updBlockInsts label h rest

/-- Apply `h` inside the first function containing a block labelled `label`. -/
def updFuncInsts (label : Nat) (h : List Instruction → List Instruction) :
    List FunctionIR → List FunctionIR
  | [] => []
  | f :: rest =>
      if (f.findBlock label).isSome then
        { f with blocks := updBlockInsts label h f.blocks } :: rest
      else f :: updFuncInsts label h rest

/-- In-place edit of the instruction list of the block labelled `label`. -/
def ModuleIR.updateInstsAt (m : ModuleIR) (label : Nat)
    (h : List Instruction → List Instruction) : ModuleIR :=
  { m with functions := updFuncInsts label h m.functions }

/-- Apply `g` to the list element at the given index (no-op out of range). -/
def updateIdx (g : Instruction → Instruction) :
    List Instruction → Nat → List Instruction
  | [], _ => []
  | i :: rest, 0 => g i :: rest
  | i :: rest, n + 1 => i :: updateIdx g rest n

/-- `Instruction::SetInOperand`. -/
def Instruction.setInOperand (i : Instruction) (idx val : Nat) : Instruction :=
  ⟨i.opcode, i.typeId, i.resultId, i.operands.set idx val⟩

/-- Overwrite in-operand `idx` of the instruction at `r` with `val`. -/
def ModuleIR.setInOperandAt (m : ModuleIR) (r : InstrRef) (idx val : Nat) :
    ModuleIR :=
  m.updateInstsAt r.blockLabel
    (fun insts => updateIdx (fun i => i.setInOperand idx val) insts r.instIdx)

/-- `TransformationReplaceIrrelevantId::Apply` (source lines 80-95): locate
the use (the source dereferences the result without a null check) and
overwrite the one operand. -/
def applyReplaceIrrelevantId (m : ModuleIR) (msg : ReplaceIrrelevantIdMsg) :
    Option ModuleIR :=
  match findInstructionContainingUse m msg.id_use_descriptor with
  | none => none
  | some _ => some (m.setInOperandAt msg.id_use_descriptor.enclosing_instruction
      msg.id_use_descriptor.in_operand_index msg.replacement_id)

/-- A module with an `OpIAdd` using the irrelevant constant id 10 twice; id 11
is a same-typed replacement. -/
def riModule : ModuleIR :=
  { typesValues := [⟨.OpTypeDecl, 0, 1, []⟩, ⟨.OpConstantDecl, 1, 10, []⟩,
      ⟨.OpConstantDecl, 1, 11, []⟩],
    types := [(1, .intT 32 true)],
    constants := [(10, .intC 32 true 1), (11, .intC 32 true 5)],
    functions := [{ fnId := 5, typeId := 1, params := [],
                    blocks := [⟨30, [⟨.OpIAdd, 1, 40, [10, 10]⟩,
                                     ⟨.OpReturnValue, 0, 0, [40]⟩]⟩] }] }

/-- Replace the use of id 10 at in-operand 0 of the `OpIAdd` with id 11. -/
def riMsg : ReplaceIrrelevantIdMsg := ⟨⟨10, ⟨30, 0⟩, 0⟩, 11⟩

/-- Fact context for `riModule`: id 10 is irrelevant, both fuzzerutil oracles
answer true. -/
def riCtx : RICtx := ⟨⟨[], [10]⟩, fun _ _ => true, fun _ _ _ => true⟩

/-- `riModule` after one application of `riMsg`. -/
def riModuleOnce : ModuleIR :=
  { typesValues := [⟨.OpTypeDecl, 0, 1, []⟩, ⟨.OpConstantDecl, 1, 10, []⟩,
      ⟨.OpConstantDecl, 1, 11, []⟩],
    types := [(1, .intT 32 true)],
    constants := [(10, .intC 32 true 1), (11, .intC 32 true 5)],
    functions := [{ fnId := 5, typeId := 1, params := [],
                    blocks := [⟨30, [⟨.OpIAdd, 1, 40, [11, 10]⟩,
                                     ⟨.OpReturnValue, 0, 0, [40]⟩]⟩] }] }

/-- `riModule` but with pointer-typed ids 10 and 11 (type 4). -/
def riPtrModule : ModuleIR :=
  { typesValues := [⟨.OpTypeDecl, 0, 4, []⟩, ⟨.OpVariable, 4, 10, []⟩,
      ⟨.OpVariable, 4, 11, []⟩],
    types := [(4, .ptrT (.intT 32 true))],
    constants := [],
    functions := [{ fnId := 5, typeId := 4, params := [],
                    blocks := [⟨30, [⟨.OpLoad, 4, 40, [10]⟩,
                                     ⟨.OpReturnValue, 0, 0, [40]⟩]⟩] }] }

/-- Sorted-set insertion (`std::set` keeps keys ascending). -/
def insertSorted (k : Nat) : List Nat → List Nat
  | [] => [k]
  | x :: rest =>
      if k < x then k :: x :: rest
      else if k = x then x :: rest
      else x :: insertSorted k rest

/-- `std::map::emplace`: insert keeping keys ascending; an existing key wins. -/
def alInsert {α : Type} (k : Nat) (v : α) : List (Nat × α) → List (Nat × α)
  | [] => [(k, v)]
  | (k2, v2) :: rest =>
      if k < k2 then (k, v) :: (k2, v2) :: rest
      else if k = k2 then (k2, v2) :: rest
      else (k2, v2) :: alInsert k v rest

/-- `map[k]` followed by a mutation of the mapped value (`operator[]` inserts
a default when the key is absent). -/
def alUpdate {α : Type} (k : Nat) (dflt : α) (g : α → α) :
    List (Nat × α) → List (Nat × α)
  | [] => [(k, g dflt)]
  | (k2, v2) :: rest =>
      if k < k2 then (k, g dflt) :: (k2, v2) :: rest
      else if k = k2 then (k2, g v2) :: rest
      else (k2, v2) :: alUpdate k dflt g rest

/-- `BasicBlock::WhileEachPhiInst` visits the leading `OpPhi` run. -/
def Block.phiPrefix (b : Block) : List Instruction :=
  b.insts.takeWhile (fun i => i.opcode == .OpPhi)

/-- `Function::entry()`. -/
def FunctionIR.entryBlock (f : FunctionIR) : Option Block := f.blocks.head?

/-- `BasicBlock::IsReturn`: the terminator is a return. -/
def Block.isReturn (b : Block) : Bool :=
  match b.termInst with
  | some t => t.opcode == .OpReturn || t.opcode == .OpReturnValue
  | none => false

/-- One saturation step of forward reachability. -/
def succOfSet (f : FunctionIR) (vis : List Nat) : List Nat :=
  vis ++ (f.blocks.filter (fun b => vis.contains b.labelId)).flatMap
    (fun b => (b.termInst.map Instruction.successors).getD [])

/-- Block ids reachable from the entry block. -/
def FunctionIR.reachableIds (f : FunctionIR) : List Nat :=
  Nat.rec (motive := fun _ => List Nat)
    ((f.blocks.head?.map Block.labelId).toList)
    (fun _ acc => succOfSet f acc) (f.blocks.length + 1)

/-- Modelled from the spec (fuzzer_util.cpp is not part of this excerpt):
`GetReachableReturnBlocks` returns the reachable blocks ending in a return,
as an ascending id set. -/
def reachableReturnBlocks (m : ModuleIR) (function_id : Nat) : List Nat :=
  match m.functions.find? (fun f => f.fnId == function_id) with
  | none => []
  | some f =>
      ((f.blocks.filter (fun b =>
          b.isReturn && f.reachableIds.contains b.labelId)).map
        Block.labelId).foldr insertSorted []

/-- One entry of the message's `return_merging_info`. -/
structure ReturnMergingInfo where
  merge_block_id : Nat
  is_returning_id : Nat
  maybe_return_val_id : Nat
  opphi_to_suitable_id : List (Nat × Nat)
deriving DecidableEq, Repr

/-- The protobuf message of `TransformationMergeFunctionReturns`. -/
structure MergeReturnsMsg where
  function_id : Nat
  outer_header_id : Nat
  outer_return_id : Nat
  return_val_id : Nat
  any_returnable_val_id : Nat
  return_merging_info : List ReturnMergingInfo
deriving DecidableEq, Repr

/-- The external services merge-function-returns consumes: the structured-CFG
analysis's innermost-enclosing-loop-merge-block query (0 = none), the nesting
depth used by `ComparatorDeepBlocksFirst`, and the transformation context's
overflow-id source. -/
structure MROracle where
  loopMergeBlock : Nat → Nat
  depth : Nat → Nat
  overflowIds : List Nat

/-- `GetMappingOfMergeBlocksToInfo` (source lines 606-613). -/
def getMappingOfMergeBlocksToInfo (msg : MergeReturnsMsg) :
    List (Nat × ReturnMergingInfo) :=
  msg.return_merging_info.foldl
    (fun acc info => alInsert info.merge_block_id info acc) []

/-- `GetTypesToIdAvailableAfterEntryBlock` (source lines 615-644): globals,
then parameters, then entry-block results; the first id of each type wins. -/
def getTypesToIdAvailableAfterEntryBlock (m : ModuleIR) (f : FunctionIR) :
    List (Nat × Nat) :=
  let entryInsts := ((f.blocks.head?).map Block.insts).getD []
  ((m.typesValues ++ f.params ++ entryInsts).filter
    (fun i => i.hasResultId && i.typeId != 0)).foldl
    (fun acc i => alInsert i.typeId i.resultId acc) []

/-- Modelled from the spec (fuzzer_util.cpp is not part of this excerpt):
`IdIsAvailableBeforeInstruction` at the entry block's terminator — the id is
a global, a parameter, or defined in the entry block before its terminator. -/
def idIsAvailableBeforeEntryTerminator (m : ModuleIR) (f : FunctionIR)
    (id : Nat) : Bool :=
  id != 0 &&
    (m.typesValues.any (fun i => i.resultId == id) ||
     f.params.any (fun i => i.resultId == id) ||
     (((f.blocks.head?.map Block.insts).getD []).dropLast).any
       (fun i => i.resultId == id))

/-- The merge-block ids collected by source lines 90-99.  The source's
line 97 recomputes `LoopMergeBlock(block)` (not of the merge block found),
so the while loop inserts at most the innermost merge block per return block
and then terminates; this definition is that net effect. -/
def mrCollectMergeBlocks (oracle : MROracle) (return_blocks : List Nat) :
    List Nat :=
  return_blocks.foldl
    (fun acc block =>
      let mb := oracle.loopMergeBlock block
      if mb ≠ 0 && !(acc.contains mb) then insertSorted mb acc else acc) []

/-- The per-merge-block applicability checks of source lines 148-215. -/
def mrMergeBlockChecks (m : ModuleIR) (oracle : MROracle) (f : FunctionIR)
    (isVoid : Bool) (types_to_available_ids : List (Nat × Nat))
    (merge_blocks_to_info : List (Nat × ReturnMergingInfo))
    (availableBeforePhi : Nat → Nat → Bool) :
    List Nat → List Nat → Option Bool
  | [], _used => some true
  | merge_block :: rest, used =>
      match lookupA merge_blocks_to_info merge_block with
      | some info =>
          let (ok1, used) := checkIdIsFreshAndNotUsedByThisTransformation m
            info.is_returning_id used
          if info.is_returning_id = 0 || !ok1 then some false
          else
            let (ok2, used) :=
              if !isVoid then
                checkIdIsFreshAndNotUsedByThisTransformation m
                  info.maybe_return_val_id used
              else (true, used)
            if !isVoid && (info.maybe_return_val_id = 0 || !ok2) then some false
            else
              match f.findBlock merge_block with
              | none => none
              | some b =>
                  let phisOk := (b.phiPrefix).all (fun inst =>
                    match lookupA info.opphi_to_suitable_id inst.resultId with
                    | some pid =>
                        match m.getDef pid with
                        | some placeholder_def =>
                            inst.typeId == placeholder_def.typeId &&
                              availableBeforePhi inst.resultId pid
                        | none =>
                            (lookupA types_to_available_ids inst.typeId).isSome
                    | none =>
                        (lookupA types_to_available_ids inst.typeId).isSome)
                  if !phisOk then some false
                  else mrMergeBlockChecks m oracle f isVoid
                    types_to_available_ids merge_blocks_to_info
                    availableBeforePhi rest used
      | none =>
          if oracle.overflowIds.isEmpty then some false
          else
            match f.findBlock merge_block with
            | none => none
            | some b =>
                let phisOk := (b.phiPrefix).all (fun inst =>
                  (lookupA types_to_available_ids inst.typeId).isSome)
                if !phisOk then some false
                else mrMergeBlockChecks m oracle f isVoid
                  types_to_available_ids merge_blocks_to_info
                  availableBeforePhi rest used

/-- `TransformationMergeFunctionReturns::IsApplicable` (source lines 41-218).
`availableBeforePhi` is the dominance-based `IdIsAvailableBeforeInstruction`
oracle for placeholder ids at merge-block `OpPhi`s. -/
def isApplicableMergeReturns (m : ModuleIR) (oracle : MROracle)
    (availableBeforePhi : Nat → Nat → Bool) (msg : MergeReturnsMsg) :
    Option Bool :=
  match m.functions.find? (fun f => f.fnId == msg.function_id) with
  | none => some false
  | some f =>
    match f.entryBlock with
    | none => none
    | some entry =>
      match entry.termInst with
      | none => none
      | some entryTerm =>
        if entryTerm.opcode ≠ .OpBranch then some false
        else
          match lookupA m.types f.typeId with
          | none => none
          | some function_type =>
            let types_to_available_ids := getTypesToIdAvailableAfterEntryBlock m f
            let returnableOk :=
              if !function_type.isVoid then
                match m.getDef msg.any_returnable_val_id with
                | none => (lookupA types_to_available_ids f.typeId).isSome
                | some returnable_val_def =>
                    returnable_val_def.typeId == f.typeId &&
                      idIsAvailableBeforeEntryTerminator m f
                        msg.any_returnable_val_id
              else true
            if !returnableOk then some false
            else
              let return_blocks := reachableReturnBlocks m msg.function_id
              let merge_blocks := mrCollectMergeBlocks oracle return_blocks
              -- lines 101-114: merge blocks may contain only labels, phis and
              -- branches
              match (merge_blocks.foldl
                  (fun acc mb =>
                    match acc with
                    | none => none
                    | some ok =>
                      if !ok then some false
                      else
                        match f.findBlock mb with
                        | none => none
                        | some b => some (b.allInsts.all (fun i =>
                            i.opcode == .OpLabel || i.opcode == .OpPhi ||
                              i.opcode == .OpBranch))) (some true)) with
              | none => none
              | some instructionsAllowed =>
                if !instructionsAllowed then some false
                else if (m.maybeGetBoolConstant true).isNone then some false
                else if (m.maybeGetBoolConstant false).isNone then some false
                else
                  -- lines 128-143: outer fresh ids
                  let (okH, used) := checkIdIsFreshAndNotUsedByThisTransformation
                    m msg.outer_header_id []
                  if msg.outer_header_id = 0 || !okH then some false
                  else
                    let (okR, used) := checkIdIsFreshAndNotUsedByThisTransformation
                      m msg.outer_return_id used
                    if msg.outer_return_id = 0 || !okR then some false
                    else
                      let (okV, used) :=
                        if !function_type.isVoid then
                          checkIdIsFreshAndNotUsedByThisTransformation m
                            msg.return_val_id used
                        else (true, used)
                      if !function_type.isVoid &&
                          (msg.return_val_id = 0 || !okV) then some false
                      else
                        mrMergeBlockChecks m oracle f function_type.isVoid
                          types_to_available_ids
                          (getMappingOfMergeBlocksToInfo msg)
                          availableBeforePhi merge_blocks used

/-- The merge-block map initialization of `Apply` (source lines 266-278;
line 276 recomputes `LoopMergeBlock(ret_block_id)`, so each return block
contributes only its innermost merge block before the loop terminates). -/
def mrInitMergeMap (oracle : MROracle) (return_blocks : List Nat) :
    List (Nat × List (Nat × (Nat × Nat))) :=
  return_blocks.foldl
    (fun acc ret =>
      let mb := oracle.loopMergeBlock ret
      if mb ≠ 0 && !(lookupA acc mb).isSome then alInsert mb [] acc else acc) []

/-- The return-block adjustment of `Apply` (source lines 286-317).  After the
map bookkeeping, line 311 reassigns `merge_block_id = outer_return_id()`
unconditionally, so every return is redirected to the new outer return
block. -/
def mrAdjustReturnBlocks (oracle : MROracle) (isVoid : Bool)
    (constant_true outer_return_id : Nat) :
    List Nat → FunctionIR → List (Nat × List (Nat × (Nat × Nat))) →
      List (Nat × Nat) →
      Option (FunctionIR × List (Nat × List (Nat × (Nat × Nat))) × List (Nat × Nat))
  | [], f, mergeMap, outerPreds => some (f, mergeMap, outerPreds)
  | ret :: rest, f, mergeMap, outerPreds =>
      match f.findBlock ret with
      | none => none
      | some ret_block =>
        match ret_block.termInst with
        | none => none
        | some term =>
          match (if isVoid then some 0 else term.operands[0]?) with
          | none => none
          | some ret_val_id =>
            let merge_block_id := oracle.loopMergeBlock ret
            let st :=
              if merge_block_id ≠ 0 then
                (alUpdate merge_block_id []
                  (alInsert ret (ret_val_id, constant_true)) mergeMap, outerPreds)
              else (mergeMap, alInsert ret ret_val_id outerPreds)
            let newInsts := fun (insts : List Instruction) => insts.dropLast ++
              [⟨.OpBranch, term.typeId, term.resultId, [outer_return_id]⟩]
            let f2 := { f with blocks := updBlockInsts ret newInsts f.blocks }
            mrAdjustReturnBlocks oracle isVoid constant_true outer_return_id
              rest f2 st.1 st.2

/-- `std::sort` with `ComparatorDeepBlocksFirst` (deeper blocks first),
as an insertion sort on the oracle's nesting depth. -/
def insDesc (depth : Nat → Nat) (x : Nat) : List Nat → List Nat
  | [] => [x]
  | y :: rest => if depth x > depth y then x :: y :: rest else y :: insDesc depth x rest

/-- Sort block ids so that deeper blocks come first. -/
def sortByDepthDesc (depth : Nat → Nat) (l : List Nat) : List Nat :=
  l.foldr (insDesc depth) []

/-- Apply `g` to the leading `OpPhi` run (`BasicBlock::ForEachPhiInst`). -/
def mapPhiPrefix (g : Instruction → Instruction) :
    List Instruction → List Instruction
  | [] => []
  | i :: rest =>
      if i.opcode == .OpPhi then g i :: mapPhiPrefix g rest else i :: rest

/-- The state threaded through the merge-block processing loop of `Apply`. -/
structure MRState where
  f : FunctionIR
  mergeMap : List (Nat × List (Nat × (Nat × Nat)))
  outerPreds : List (Nat × Nat)
  overflowUsed : Nat
deriving Repr

/-- The merge-block processing loop of `Apply` (source lines 329-510): for
each listed merge block, extend its `OpPhi`s with operands for new returning
predecessors, prepend a return-value `OpPhi` (non-void) and an is-returning
`OpPhi`, record the block with its enclosing merge (or the outer return
block), and retarget its branch.  `none` models popping an empty overflow
source or `get_instr_block` returning null (as it does for the zeros that
line 320 put into the list). -/
def mrProcessMergeBlocks (oracle : MROracle) (msg : MergeReturnsMsg)
    (isVoid : Bool) (types_to_available_ids : List (Nat × Nat))
    (returnable_val_id fnTypeId bool_type constant_false : Nat) :
    List Nat → MRState → Option MRState
  | [], st => some st
  | merge_block_id :: rest, st =>
      let info? := lookupA (getMappingOfMergeBlocksToInfo msg) merge_block_id
      match (match info? with
             | some info => some (info.is_returning_id, st.overflowUsed)
             | none => (oracle.overflowIds[st.overflowUsed]?).map
                 (fun id => (id, st.overflowUsed + 1))) with
      | none => none
      | some (is_returning_id, ou1) =>
        match (if isVoid then some (0, ou1)
               else match info? with
               | some info => some (info.maybe_return_val_id, ou1)
               | none => (oracle.overflowIds[ou1]?).map
                   (fun id => (id, ou1 + 1))) with
        | none => none
        | some (maybe_return_val_id, ou2) =>
          let phi_to_id := (info?.map ReturnMergingInfo.opphi_to_suitable_id).getD []
          let returning_preds := (lookupA st.mergeMap merge_block_id).getD []
          let preds := (st.f.predsOf merge_block_id).foldr insertSorted []
          match st.f.findBlock merge_block_id with
          | none => none
          | some merge_block =>
            let newPreds := returning_preds.filter (fun e => !(preds.contains e.1))
            let adjustPhi := fun (inst : Instruction) =>
              let placeholder_val_id :=
                (lookupA phi_to_id inst.resultId).getD
                  ((lookupA types_to_available_ids inst.typeId).getD 0)
              { inst with operands := inst.operands ++
                  newPreds.flatMap (fun e => [placeholder_val_id, e.1]) }
            let insts1 := mapPhiPrefix adjustPhi merge_block.insts
            let nonRetPreds := preds.filter
              (fun p => !(lookupA returning_preds p).isSome)
            let insts2 :=
              if !isVoid then
                ⟨.OpPhi, fnTypeId, maybe_return_val_id,
                  returning_preds.flatMap (fun e => [e.2.1, e.1]) ++
                    nonRetPreds.flatMap (fun p => [returnable_val_id, p])⟩ :: insts1
              else insts1
            let insts3 :=
              (⟨.OpPhi, bool_type, is_returning_id,
                returning_preds.flatMap (fun e => [e.2.2, e.1]) ++
                  nonRetPreds.flatMap (fun p => [constant_false, p])⟩ :
                Instruction) :: insts2
            let enclosing0 := oracle.loopMergeBlock merge_block_id
            let next :=
              if enclosing0 = 0 then
                (msg.outer_return_id, st.mergeMap,
                  alInsert merge_block_id maybe_return_val_id st.outerPreds)
              else
                (enclosing0,
                  alUpdate enclosing0 []
                    (alInsert merge_block_id (maybe_return_val_id, is_returning_id))
                    st.mergeMap,
                  st.outerPreds)
            match insts3.getLast? with
            | none => none
            | some term =>
              match term.operands[0]? with
              | none => none
              | some original_succ =>
                -- Source line 505 sets the opcode to OpBranch while giving it
                -- conditional-branch operands.
                let insts4 :=
                  if original_succ = next.1 then insts3
                  else insts3.dropLast ++
                    [⟨.OpBranch, term.typeId, term.resultId,
                      [is_returning_id, next.1, original_succ]⟩]
                let f2 :=
                  { st.f with blocks := updBlockInsts merge_block_id (fun _ => insts4) st.f.blocks }
                mrProcessMergeBlocks oracle msg isVoid types_to_available_ids
                  returnable_val_id fnTypeId bool_type constant_false rest
                  ⟨f2, next.2.1, next.2.2, ou2⟩

/-- `TransformationMergeFunctionReturns::Apply` (source lines 220-599),
returning the mutated function.  `none` models the undefined behaviour the
source reaches on its crash paths. -/
def applyMergeReturns (m : ModuleIR) (oracle : MROracle)
    (msg : MergeReturnsMsg) : Option FunctionIR := do
  let f ← m.functions.find? (fun f => f.fnId == msg.function_id)
  let function_type ← lookupA m.types f.typeId
  let types_to_available_ids := getTypesToIdAvailableAfterEntryBlock m f
  let returnable_val_id :=
    if !function_type.isVoid then
      match m.getDef msg.any_returnable_val_id with
      | some d => d.resultId
      | none => (lookupA types_to_available_ids f.typeId).getD 0
    else 0
  let bool_type := (m.maybeGetBoolType).getD 0
  let constant_true := (m.maybeGetBoolConstant true).getD 0
  let constant_false := (m.maybeGetBoolConstant false).getD 0
  let return_blocks := reachableReturnBlocks m msg.function_id
  let mergeMap0 := mrInitMergeMap oracle return_blocks
  let adj ← mrAdjustReturnBlocks oracle function_type.isVoid constant_true
    msg.outer_return_id return_blocks f mergeMap0 []
  -- Source lines 320-324: the vector is constructed with `size` zero
  -- elements and the keys are appended after them.
  let merge_blocks := sortByDepthDesc oracle.depth
    (List.replicate adj.2.1.length 0 ++ adj.2.1.map Prod.fst)
  let st ← mrProcessMergeBlocks oracle msg function_type.isVoid
    types_to_available_ids returnable_val_id f.typeId bool_type constant_false
    merge_blocks ⟨adj.1, adj.2.1, adj.2.2, 0⟩
  let entry ← st.f.blocks.head?
  let entryTerm ← entry.termInst
  let block_after_entry ← entryTerm.operands[0]?
  let header : Block := ⟨msg.outer_header_id,
    [⟨.OpLoopMerge, 0, 0, [msg.outer_return_id, msg.outer_header_id]⟩,
     ⟨.OpBranchConditional, 0, 0,
       [constant_true, block_after_entry, msg.outer_header_id]⟩]⟩
  let entry2 : Block := ⟨entry.labelId, entry.insts.dropLast ++
    [⟨entryTerm.opcode, entryTerm.typeId, entryTerm.resultId,
      [msg.outer_header_id]⟩]⟩
  let outer_ret : Block := ⟨msg.outer_return_id,
    if !function_type.isVoid then
      [⟨.OpPhi, f.typeId, msg.return_val_id,
        st.outerPreds.flatMap (fun e => [e.2, e.1])⟩,
       ⟨.OpReturnValue, 0, 0, [msg.return_val_id]⟩]
    else [⟨.OpReturn, 0, 0, []⟩]⟩
  some { st.f with blocks := entry2 :: header :: st.f.blocks.tail ++ [outer_ret] }

/-- Count of return instructions in a function. -/
def countReturns (f : FunctionIR) : Nat :=
  ((f.blocks.flatMap Block.insts).filter
    (fun i => i.opcode == .OpReturn || i.opcode == .OpReturnValue)).length

/-- A non-void function with a reachable return inside a loop (block 22,
enclosed by the loop headed at 21 with merge block 24) and one outside
(block 25). -/
def mrFunction : FunctionIR :=
  { fnId := 5, typeId := 1, params := [],
    blocks := [⟨20, [⟨.OpBranch, 0, 0, [21]⟩]⟩,
               ⟨21, [⟨.OpLoopMerge, 0, 0, [24, 23]⟩,
                     ⟨.OpBranchConditional, 0, 0, [90, 22, 24]⟩]⟩,
               ⟨22, [⟨.OpReturnValue, 0, 0, [10]⟩]⟩,
               ⟨23, [⟨.OpBranch, 0, 0, [21]⟩]⟩,
               ⟨24, [⟨.OpBranch, 0, 0, [25]⟩]⟩,
               ⟨25, [⟨.OpReturnValue, 0, 0, [11]⟩]⟩] }

/-- The module around `mrFunction`, with Boolean constants 90/91 and int32
constants 10/11. -/
def mrModule : ModuleIR :=
  { typesValues := [⟨.OpTypeDecl, 0, 1, []⟩, ⟨.OpTypeDecl, 0, 2, []⟩,
      ⟨.OpTypeDecl, 0, 3, []⟩,
      ⟨.OpConstantDecl, 1, 10, []⟩, ⟨.OpConstantDecl, 1, 11, []⟩,
      ⟨.OpConstantDecl, 3, 90, []⟩, ⟨.OpConstantDecl, 3, 91, []⟩],
    types := [(1, .intT 32 true), (2, .voidT), (3, .boolT)],
    constants := [(10, .intC 32 true 7), (11, .intC 32 true 9),
      (90, .boolC true), (91, .boolC false)],
    functions := [mrFunction] }

/-- The structured-CFG oracle for `mrModule`: blocks 21-23 live in the loop
whose merge block is 24. -/
def mrOracle : MROracle :=
  { loopMergeBlock := fun b => if b = 21 || b = 22 || b = 23 then 24 else 0,
    depth := fun b => if 21 ≤ b && b ≤ 24 then 1 else 0,
    overflowIds := [] }

/-- A fully supplied message for `mrModule`. -/
def mrMsgGood : MergeReturnsMsg := ⟨5, 200, 201, 202, 10, [⟨24, 210, 211, []⟩]⟩

/-- The same function with both returns outside any loop. -/
def mrFunctionNoLoop : FunctionIR :=
  { fnId := 5, typeId := 1, params := [],
    blocks := [⟨20, [⟨.OpBranch, 0, 0, [21]⟩]⟩,
               ⟨21, [⟨.OpBranchConditional, 0, 0, [90, 22, 25]⟩]⟩,
               ⟨22, [⟨.OpReturnValue, 0, 0, [10]⟩]⟩,
               ⟨25, [⟨.OpReturnValue, 0, 0, [11]⟩]⟩] }

/-- `mrModule` with the loop-free function. -/
def mrModuleNoLoop : ModuleIR := { mrModule with functions := [mrFunctionNoLoop] }

/-- The trivial structured-CFG oracle: no block is inside a loop. -/
def mrOracleZero : MROracle := ⟨fun _ => 0, fun _ => 0, []⟩

/-- A message for the loop-free function (no merge blocks to thread). -/
def mrMsgNoLoop : MergeReturnsMsg := ⟨5, 200, 201, 202, 10, []⟩

/-- What `Apply` produces on the loop-free function: each former return block
branches to the new outer return block 201, whose value-merge collects the
original return values (10 from block 22, 11 from block 25) and feeds the
single `OpReturnValue`. -/
def mrFunctionNoLoopMerged : FunctionIR :=
  { fnId := 5, typeId := 1, params := [],
    blocks := [⟨20, [⟨.OpBranch, 0, 0, [200]⟩]⟩,
               ⟨200, [⟨.OpLoopMerge, 0, 0, [201, 200]⟩,
                      ⟨.OpBranchConditional, 0, 0, [90, 21, 200]⟩]⟩,
               ⟨21, [⟨.OpBranchConditional, 0, 0, [90, 22, 25]⟩]⟩,
               ⟨22, [⟨.OpBranch, 0, 0, [201]⟩]⟩,
               ⟨25, [⟨.OpBranch, 0, 0, [201]⟩]⟩,
               ⟨201, [⟨.OpPhi, 1, 202, [10, 22, 11, 25]⟩,
                      ⟨.OpReturnValue, 0, 0, [202]⟩]⟩] }

/-- The protobuf message of `TransformationFlattenConditionalBranch`, with
instruction descriptors modelled as structural references. -/
structure FlattenMsg where
  header_block_id : Nat
  instruction_to_fresh_ids : List (InstrRef × List Nat)
  overflow_id : List Nat
deriving DecidableEq, Repr

/-- The external services flatten-conditional-branch consumes:
`InstructionHasNoSideEffects` (fuzzer_util.cpp is not part of this excerpt;
modelled from the spec as an oracle classification), whether a void result id
is used as an input operand anywhere (the def-use walk of source lines
588-595), and the dominance/post-dominance analyses. -/
structure FlattenOracle where
  hasNoSideEffects : Instruction → Bool
  voidResultIsUsed : Nat → Bool
  dominates : Nat → Nat → Bool
  postdominates : Nat → Nat → Bool

/-- The FactManager's dead-block fact store (the subset flatten touches). -/
structure DeadBlockFacts where
  deadBlocks : List Nat
deriving DecidableEq, Repr

/-- `FactManager::BlockIsDead`. -/
def DeadBlockFacts.BlockIsDead (s : DeadBlockFacts) (id : Nat) : Bool :=
  s.deadBlocks.contains id

/-- `FactManager::AddFactBlockIsDead`. -/
def DeadBlockFacts.AddFactBlockIsDead (s : DeadBlockFacts) (id : Nat) :
    DeadBlockFacts :=
  ⟨insertSet id s.deadBlocks⟩

/-- `NumOfFreshIdsNeededByInstruction` (source lines 393-403): 2 unless the
instruction has a result id of non-void type, in which case 5.  A result id
whose type is not in the type manager also counts as non-void (the source's
`(type && type->AsVoid()) ? 2 : 5`). -/
def numOfFreshIdsNeededByInstruction (m : ModuleIR) (inst : Instruction) : Nat :=
  if inst.hasResultId then
    match lookupA m.types inst.typeId with
    | some t => if t.isVoid then 2 else 5
    | none => 5
  else 2

/-- `InstructionCanBeHandled` (source lines 558-601).  `none` models the
release-build null dereference when a result-carrying instruction's type is
absent (the source only asserts it). -/
def instructionCanBeHandled (m : ModuleIR) (oracle : FlattenOracle)
    (inst : Instruction) : Option Bool :=
  if oracle.hasNoSideEffects inst then some true
  else if inst.opcode = .OpControlBarrier || inst.opcode = .OpMemoryBarrier ||
      inst.opcode = .OpNamedBarrierInit || inst.opcode = .OpMemoryNamedBarrier ||
      inst.opcode = .OpTypeNamedBarrier then some false
  else if inst.opcode = .OpSampledImage then some false
  else if inst.hasResultId then
    match lookupA m.types inst.typeId with
    | some t => some (!(t.isVoid && oracle.voidResultIsUsed inst.resultId))
    | none => none
  else some true

/-- Insert into the instruction set (`std::set` keyed by pointer): keep the
first occurrence of each reference. -/
def needsInsert (r : InstrRef) (needs : List InstrRef) : List InstrRef :=
  if needs.contains r then needs else needs ++ [r]

/-- The per-block instruction scan of `ConditionalCanBeFlattened`
(source lines 350-377): labels are skipped, branches must be unconditional,
everything else must be handleable, and side-effecting instructions join the
needs-ids set.  The inner `some none` means the block is incompatible. -/
def flattenCheckInsts (m : ModuleIR) (oracle : FlattenOracle) (blockLabel : Nat) :
    List (Nat × Instruction) → List InstrRef → Option (Option (List InstrRef))
  | [], needs => some (some needs)
  | (idx, inst) :: rest, needs =>
      if inst.opcode = .OpLabel then flattenCheckInsts m oracle blockLabel rest needs
      else if inst.isBranch then
        if inst.opcode = .OpBranch then flattenCheckInsts m oracle blockLabel rest needs
        else some none
      else
        match instructionCanBeHandled m oracle inst with
        | none => none
        | some false => some none
        | some true =>
            let needs2 := if !(oracle.hasNoSideEffects inst) then
                needsInsert ⟨blockLabel, idx⟩ needs
              else needs
            flattenCheckInsts m oracle blockLabel rest needs2

/-- The convergence-point walk of `ConditionalCanBeFlattened` (source lines
295-305): walk single-predecessor chains upward from the merge block;
`some none` is the source's early `return false` when the chain passes
through the header. -/
def convergenceLoop (f : FunctionIR) (headerId : Nat) :
    Nat → Nat → Option (Option Nat)
  | _, 0 => none
  | conv, fuel+1 =>
      if (f.predsOf conv).length = 1 then
        if conv = headerId then some none
        else
          match (f.predsOf conv)[0]? with
          | some p => convergenceLoop f headerId p fuel
          | none => none
      else some (some conv)

/-- The convergence-point walk of `Apply` (source lines 140-143), which has no
header guard. -/
def applyConvLoop (f : FunctionIR) : Nat → Nat → Option Nat
  | _, 0 => none
  | conv, fuel+1 =>
      if (f.predsOf conv).length = 1 then
        match (f.predsOf conv)[0]? with
        | some p => applyConvLoop f p fuel
        | none => none
      else some conv

/-- The breadth-first region check of `ConditionalCanBeFlattened` (source
lines 328-386): visit blocks from the header's successors to the convergence
block, rejecting blocks with merge instructions or incompatible instructions,
collecting side-effecting instructions, and enqueueing each block's single
successor. -/
def flattenBfs (m : ModuleIR) (oracle : FlattenOracle) (f : FunctionIR)
    (convId : Nat) : List Nat → List InstrRef → Nat → Option (Bool × List InstrRef)
  | [], needs, _ => some (true, needs)
  | _, _, 0 => none
  | q :: rest, needs, fuel+1 =>
      if q = convId then flattenBfs m oracle f convId rest needs fuel
      else
        match f.findBlock q with
        | none => none
        | some b =>
          if (b.mergeInst).isSome then some (false, needs)
          else
            match flattenCheckInsts m oracle q b.insts.enum needs with
            | none => none
            | some none => some (false, needs)
            | some (some needs2) =>
                match b.termInst with
                | none => none
                | some t =>
                    match t.operands[0]? with
                    | none => none
                    | some succ =>
                        flattenBfs m oracle f convId (rest ++ [succ]) needs2 fuel

/-- `ConditionalCanBeFlattened` (source lines 284-391). -/
def conditionalCanBeFlattened (m : ModuleIR) (oracle : FlattenOracle)
    (f : FunctionIR) (header : Block) (fuel : Nat) :
    Option (Bool × List InstrRef) :=
  match header.mergeInst with
  | none => none
  | some mi =>
    match mi.operands[0]? with
    | none => none
    | some merge_block_id =>
      match convergenceLoop f header.labelId merge_block_id fuel with
      | none => none
      | some none => some (false, [])
      | some (some convId) =>
        if !(oracle.dominates header.labelId convId &&
            oracle.postdominates convId header.labelId) then some (false, [])
        else
          flattenBfs m oracle f convId
            ((header.termInst.map Instruction.successors).getD []) [] fuel

/-- `GetInstructionsToFreshIdsMapping` (source lines 405-424): descriptors
that resolve against the current module are keyed by the instruction they
name; the first descriptor for an instruction wins. -/
def getInstructionsToFreshIdsMapping (m : ModuleIR) (msg : FlattenMsg) :
    List (InstrRef × List Nat) :=
  msg.instruction_to_fresh_ids.foldl
    (fun acc p =>
      match m.findInstruction p.1 with
      | some _ => if acc.any (fun q => q.1 == p.1) then acc else acc ++ [p]
      | none => acc) []

/-- Look up an instruction reference in the fresh-ids mapping. -/
def mappingLookup (mapping : List (InstrRef × List Nat)) (r : InstrRef) :
    Option (List Nat) :=
  (mapping.find? (fun q => q.1 == r)).map Prod.snd

/-- The fresh-and-distinct check of `IsApplicable` (source lines 76-98) over
the overflow ids and then every id of the mapping. -/
def flattenCheckFreshIds (m : ModuleIR) (msg : FlattenMsg)
    (mapping : List (InstrRef × List Nat)) : Bool :=
  (((msg.overflow_id ++ mapping.flatMap Prod.snd).foldl
    (fun (acc : Bool × List Nat) id =>
      if !acc.1 then acc
      else checkIdIsFreshAndNotUsedByThisTransformation m id acc.2)
    (true, []))).1

/-- The fresh-id supply check of `IsApplicable` (source lines 100-126):
instructions with an explicit list need it at least as long as their
requirement; the others consume the shared overflow pool. -/
def flattenSupplyCheck (m : ModuleIR) (mapping : List (InstrRef × List Nat)) :
    List InstrRef → Nat → Option Bool
  | [], _ => some true
  | ref :: rest, remaining =>
      match m.findInstruction ref with
      | none => none
      | some inst =>
        let needed := numOfFreshIdsNeededByInstruction m inst
        match mappingLookup mapping ref with
        | some ids =>
            if ids.length < needed then some false
            else flattenSupplyCheck m mapping rest remaining
        | none =>
            if remaining < needed then some false
            else flattenSupplyCheck m mapping rest (remaining - needed)

/-- `TransformationFlattenConditionalBranch::IsApplicable`
(source lines 47-130). -/
def isApplicableFlatten (m : ModuleIR) (oracle : FlattenOracle)
    (msg : FlattenMsg) (fuel : Nat) : Option Bool :=
  match m.maybeFindBlock msg.header_block_id with
  | none => some false
  | some (f, header_block) =>
    match header_block.mergeInst with
    | none => some false
    | some mi =>
      if mi.opcode ≠ .OpSelectionMerge then some false
      else
        match header_block.termInst with
        | none => none
        | some term =>
          if term.opcode ≠ .OpBranchConditional then some false
          else
            match conditionalCanBeFlattened m oracle f header_block fuel with
            | none => none
            | some (canFlatten, needs) =>
              if !canFlatten then some false
              else
                let mapping := getInstructionsToFreshIdsMapping m msg
                if !flattenCheckFreshIds m msg mapping then some false
                else flattenSupplyCheck m mapping needs msg.overflow_id.length

/-- Remove the first block with the given label. -/
def extractBlock : List Block → Nat → Option (Block × List Block)
  | [], _ => none
  | b :: rest, id =>
      if b.labelId = id then some (b, rest)
      else (extractBlock rest id).map (fun p => (p.1, b :: p.2))

/-- Insert a block right after the first block with the given label. -/
def insertAfterLabel : List Block → Nat → Block → Option (List Block)
  | [], _, _ => none
  | b :: rest, id, nb =>
      if b.labelId = id then some (b :: nb :: rest)
      else (insertAfterLabel rest id nb).map (fun l => b :: l)

/-- `Function::MoveBasicBlockToAfter(block_id, anchor)`. -/
def moveBlockAfter (f : FunctionIR) (x anchorLabel : Nat) : Option FunctionIR :=
  match extractBlock f.blocks x with
  | none => none
  | some (blk, rest) =>
      match insertAfterLabel rest anchorLabel blk with
      | none => none
      | some blocks2 => some { f with blocks := blocks2 }

/-- Update the first block with the given label in a function. -/
def updBlockInstsF (f : FunctionIR) (label : Nat)
    (h : List Instruction → List Instruction) : FunctionIR :=
  { f with blocks := updBlockInsts label h f.blocks }

/-- Replace the first block with the given label by a sequence of blocks. -/
def replaceBlockByList : List Block → Nat → List Block → List Block
  | [], _, _ => []
  | b :: rest, id, nbs =>
      if b.labelId = id then nbs ++ rest
      else b :: replaceBlockByList rest id nbs

/-- `EncloseInstructionInConditional` (source lines 426-556): split the block
around the instruction, wrap the single-instruction block in a fresh
conditional on `condition_id`, propagate dead-block facts, and for a non-void
result add the alternative `OpUndef` block and the value-collecting `OpPhi`.
Returns the new merge block's label.  `none` models missing fresh ids or a
dangling instruction position. -/
def encloseInstructionInConditional (m : ModuleIR) (fm : DeadBlockFacts)
    (f : FunctionIR) (blockLabel : Nat) (instruction : Instruction)
    (fresh_ids : List Nat) (condition_id : Nat) (exec_if_cond_true : Bool) :
    Option (FunctionIR × DeadBlockFacts × Nat) :=
  match f.findBlock blockLabel with
  | none => none
  | some block =>
  match block.insts.indexOf? instruction with
  | none => none
  | some idx =>
  match fresh_ids[0]?, fresh_ids[1]? with
  | some id0, some id1 =>
    let pre := block.insts.take idx
    let post := block.insts.drop (idx + 1)
    -- the two splits: |execute_block| (id0) keeps the instruction,
    -- |merge_block| (id1) receives everything after it
    let fm1 := if fm.BlockIsDead blockLabel then
        (fm.AddFactBlockIsDead id0).AddFactBlockIsDead id1
      else fm
    match (if numOfFreshIdsNeededByInstruction m instruction = 5 then
            match fresh_ids[2]?, fresh_ids[3]?, fresh_ids[4]? with
            | some id2, some id3, some id4 =>
              some (((⟨id0, [⟨instruction.opcode, instruction.typeId, id3,
                        instruction.operands⟩,
                      ⟨.OpBranch, 0, 0, [id1]⟩]⟩ : Block),
                (some (⟨id2, [⟨.OpUndef, instruction.typeId, id4, []⟩,
                         ⟨.OpBranch, 0, 0, [id1]⟩]⟩ : Block) : Option Block),
                (⟨id1, (⟨.OpPhi, instruction.typeId, instruction.resultId,
                    [id3, id0, id4, id2]⟩ : Instruction) :: post⟩ : Block),
                (if fm.BlockIsDead blockLabel then fm1.AddFactBlockIsDead id2
                 else fm1),
                id2))
            | _, _, _ => none
          else
            some (((⟨id0, [instruction, ⟨.OpBranch, 0, 0, [id1]⟩]⟩ : Block),
              (none : Option Block), (⟨id1, post⟩ : Block), fm1, id1))) with
    | none => none
    | some result =>
      let if_block_id := if exec_if_cond_true then result.1.labelId
        else result.2.2.2.2
      let else_block_id := if exec_if_cond_true then result.2.2.2.2
        else result.1.labelId
      let newHead : Block := ⟨blockLabel, pre ++
        [⟨.OpSelectionMerge, 0, 0, [id1]⟩,
         ⟨.OpBranchConditional, 0, 0,
           [condition_id, if_block_id, else_block_id]⟩]⟩
      let seqn := match result.2.1 with
        | some ab => [newHead, result.1, ab, result.2.2.1]
        | none => [newHead, result.1, result.2.2.1]
      some ({ f with blocks := replaceBlockByList f.blocks blockLabel seqn },
        result.2.2.2.1, id1)
  | _, _ => none

/-- The walk state of `Apply`: the function, the fact manager, the count of
overflow ids consumed, and the label of the last block of the true branch. -/
structure FWState where
  f : FunctionIR
  fm : DeadBlockFacts
  overflowUsed : Nat
  lastTrue : Option Nat
deriving Repr

/-- Enclose each problematic instruction of a visited block (source lines
174-216); `probs` carries each instruction with its index in the block at
collection time (the key under which descriptors resolved it). -/
def flattenEncloseAll (m : ModuleIR) (mapping : List (InstrRef × List Nat))
    (overflow : List Nat) (origLabel condition_id : Nat) (isTrueBranch : Bool) :
    List (Nat × Instruction) → Nat → DeadBlockFacts → FunctionIR → Nat →
      Option (FunctionIR × DeadBlockFacts × Nat × Nat)
  | [], cur, fm, f, ou => some (f, fm, cur, ou)
  | (origIdx, inst) :: rest, cur, fm, f, ou =>
      let ids_needed := numOfFreshIdsNeededByInstruction m inst
      let explicit := (mappingLookup mapping ⟨origLabel, origIdx⟩).getD []
      match (if explicit.isEmpty then
               (if ou + ids_needed ≤ overflow.length then
                  some ((overflow.drop ou).take ids_needed, ou + ids_needed)
                else none)
             else some (explicit, ou)) with
      | none => none
      | some (fresh_ids, ou2) =>
          match encloseInstructionInConditional m fm f cur inst fresh_ids
              condition_id isTrueBranch with
          | none => none
          | some (f2, fm2, mergeLabel) =>
              flattenEncloseAll m mapping overflow origLabel condition_id
                isTrueBranch rest mergeLabel fm2 f2 ou2

/-- The per-branch walk of `Apply` (source lines 157-224): move each block
after the previous one, enclose its side-effecting instructions, and follow
its single successor until the convergence block. -/
def flattenWalk (m : ModuleIR) (oracle : FlattenOracle)
    (mapping : List (InstrRef × List Nat)) (overflow : List Nat)
    (convId condition_id : Nat) (isTrueBranch : Bool) :
    Nat → Nat → Nat → FWState → Option FWState
  | 0, _, _, _ => none
  | fuel+1, block_id, anchorLabel, st =>
      if block_id = convId then some st
      else
        match moveBlockAfter st.f block_id anchorLabel with
        | none => none
        | some f1 =>
          match f1.findBlock block_id with
          | none => none
          | some b =>
            match b.termInst with
            | none => none
            | some t =>
              match t.operands[0]? with
              | none => none
              | some next_id =>
                let probs := b.insts.enum.filter (fun p =>
                  p.2.opcode ≠ .OpLabel && p.2.opcode ≠ .OpBranch &&
                    !(oracle.hasNoSideEffects p.2))
                match flattenEncloseAll m mapping overflow block_id condition_id
                    isTrueBranch probs block_id st.fm f1 st.overflowUsed with
                | none => none
                | some (f2, fm2, curLabel, ou2) =>
                    let lastTrue2 :=
                      if next_id = convId && isTrueBranch then some curLabel
                      else st.lastTrue
                    flattenWalk m oracle mapping overflow convId condition_id
                      isTrueBranch fuel next_id curLabel ⟨f2, fm2, ou2, lastTrue2⟩

/-- The even-indexed operands of an `OpPhi` (its value operands; source
lines 265-269). -/
def evenOps : List Nat → List Nat
  | [] => []
  | [x] => [x]
  | x :: _ :: rest => x :: evenOps rest

/-- The `OpPhi`-to-`OpSelect` conversion applied at the convergence block. -/
def phiToSelect (condition_id : Nat) (phi : Instruction) : Instruction :=
  ⟨.OpSelect, phi.typeId, phi.resultId, condition_id :: evenOps phi.operands⟩

/-- `TransformationFlattenConditionalBranch::Apply` (source lines 132-275),
returning the mutated function and fact store.  `none` models the crash
paths (null blocks, missing operands, exhausted overflow ids) and, in the
final phase, a header whose last two instructions are no longer the captured
branch and merge instructions (`KillInst` on stale pointers). -/
def applyFlatten (m : ModuleIR) (oracle : FlattenOracle) (fm : DeadBlockFacts)
    (msg : FlattenMsg) (fuel : Nat) : Option (FunctionIR × DeadBlockFacts) :=
  match m.maybeFindBlock msg.header_block_id with
  | none => none
  | some (f, header_block) =>
    match header_block.mergeInst with
    | none => none
    | some mi =>
      match mi.operands[0]? with
      | none => none
      | some mergeId =>
        match applyConvLoop f mergeId fuel with
        | none => none
        | some convergence_block_id =>
          let mapping := getInstructionsToFreshIdsMapping m msg
          match header_block.termInst with
          | none => none
          | some branch_instruction =>
            match branch_instruction.operands[0]?,
                branch_instruction.operands[1]?,
                branch_instruction.operands[2]? with
            | some condition_id, some first_true_block_id,
                some first_false_block_id =>
              match flattenWalk m oracle mapping msg.overflow_id
                  convergence_block_id condition_id false fuel
                  first_false_block_id msg.header_block_id ⟨f, fm, 0, none⟩ with
              | none => none
              | some st1 =>
                match flattenWalk m oracle mapping msg.overflow_id
                    convergence_block_id condition_id true fuel
                    first_true_block_id msg.header_block_id st1 with
                | none => none
                | some st2 =>
                  let after_header :=
                    if first_true_block_id ≠ convergence_block_id then
                      first_true_block_id
                    else first_false_block_id
                  match st2.f.findBlock msg.header_block_id with
                  | none => none
                  | some header_cur =>
                    if header_cur.insts.getLast? == some branch_instruction &&
                        header_cur.mergeInst.isSome then
                      let f3 := updBlockInstsF st2.f msg.header_block_id
                        (fun insts => (insts.dropLast).dropLast ++
                          [⟨.OpBranch, 0, 0, [after_header]⟩])
                      match (match st2.lastTrue with
                             | none => some f3
                             | some lt =>
                               match f3.findBlock lt with
                               | none => none
                               | some ltb =>
                                 match ltb.insts.getLast? with
                                 | none => none
                                 | some ltt => some (updBlockInstsF f3 lt
                                     (fun insts => insts.dropLast ++
                                       [(⟨ltt.opcode, ltt.typeId, ltt.resultId,
                                         ltt.operands.set 0
                                           first_false_block_id⟩ :
                                         Instruction)]))) with
                      | none => none
                      | some f4 =>
                        match f4.findBlock convergence_block_id with
                        | none => none
                        | some _ =>
                          some (updBlockInstsF f4 convergence_block_id
                            (mapPhiPrefix (phiToSelect condition_id)), st2.fm)
                    else none
            | _, _, _ => none

/-- A void function with a selection at block 50 (merge block 53), both arms
side-effect-free single blocks, and an `OpPhi` at the convergence block. -/
def flFunction : FunctionIR :=
  { fnId := 6, typeId := 2, params := [],
    blocks := [⟨50, [⟨.OpSelectionMerge, 0, 0, [53]⟩,
                     ⟨.OpBranchConditional, 0, 0, [95, 51, 52]⟩]⟩,
               ⟨51, [⟨.OpBranch, 0, 0, [53]⟩]⟩,
               ⟨52, [⟨.OpBranch, 0, 0, [53]⟩]⟩,
               ⟨53, [⟨.OpPhi, 1, 60, [12, 51, 13, 52]⟩,
                     ⟨.OpReturn, 0, 0, []⟩]⟩] }

/-- The module around `flFunction`. -/
def flModule : ModuleIR :=
  { typesValues := [⟨.OpTypeDecl, 0, 1, []⟩, ⟨.OpTypeDecl, 0, 2, []⟩,
      ⟨.OpTypeDecl, 0, 3, []⟩,
      ⟨.OpConstantDecl, 1, 12, []⟩, ⟨.OpConstantDecl, 1, 13, []⟩,
      ⟨.OpConstantDecl, 3, 95, []⟩],
    types := [(1, .intT 32 true), (2, .voidT), (3, .boolT)],
    constants := [(12, .intC 32 true 4), (13, .intC 32 true 6),
      (95, .boolC true)],
    functions := [flFunction] }

/-- An oracle under which every instruction is side-effect-free and the
dominance facts of the example hold. -/
def flOracle : FlattenOracle :=
  ⟨fun _ => true, fun _ => false, fun _ _ => true, fun _ _ => true⟩

/-- The flatten message for `flModule`, needing no fresh ids. -/
def flMsg : FlattenMsg := ⟨50, [], []⟩

/-- `flFunction` with an `OpStore` in the true arm. -/
def flFunctionStore : FunctionIR :=
  { fnId := 6, typeId := 2, params := [],
    blocks := [⟨50, [⟨.OpSelectionMerge, 0, 0, [53]⟩,
                     ⟨.OpBranchConditional, 0, 0, [95, 51, 52]⟩]⟩,
               ⟨51, [⟨.OpStore, 0, 0, [16, 12]⟩, ⟨.OpBranch, 0, 0, [53]⟩]⟩,
               ⟨52, [⟨.OpBranch, 0, 0, [53]⟩]⟩,
               ⟨53, [⟨.OpPhi, 1, 60, [12, 51, 13, 52]⟩,
                     ⟨.OpReturn, 0, 0, []⟩]⟩] }

/-- `flModule` with the store-carrying function (and a pointer variable 16
for the store target). -/
def flModuleStore : ModuleIR :=
  { typesValues := [⟨.OpTypeDecl, 0, 1, []⟩, ⟨.OpTypeDecl, 0, 2, []⟩,
      ⟨.OpTypeDecl, 0, 3, []⟩, ⟨.OpTypeDecl, 0, 4, []⟩,
      ⟨.OpConstantDecl, 1, 12, []⟩, ⟨.OpConstantDecl, 1, 13, []⟩,
      ⟨.OpConstantDecl, 3, 95, []⟩, ⟨.OpVariable, 4, 16, []⟩],
    types := [(1, .intT 32 true), (2, .voidT), (3, .boolT),
      (4, .ptrT (.intT 32 true))],
    constants := [(12, .intC 32 true 4), (13, .intC 32 true 6),
      (95, .boolC true)],
    functions := [flFunctionStore] }

/-- An oracle under which `OpStore` and `OpFunctionCall` have side effects
and everything else is side-effect-free. -/
def flOracleStore : FlattenOracle :=
  ⟨fun i => i.opcode != .OpStore && i.opcode != .OpFunctionCall,
   fun _ => false, fun _ _ => true, fun _ _ => true⟩

/-- A single-successor chain from a block to the convergence point in which
every block has no merge instruction, no conditional branch, and only
side-effect-free instructions (besides labels and plain branches): the walk
of `Apply` moves along exactly such a chain and encloses nothing. -/
def cleanChain (oracle : FlattenOracle) (f : FunctionIR) (conv : Nat) :
    Nat → Nat → Bool
  | _, 0 => false
  | x, fuel+1 =>
      if x = conv then true
      else
        match f.findBlock x with
        | none => false
        | some b =>
          b.mergeInst.isNone &&
          (b.insts.enum.filter (fun p =>
            p.2.opcode ≠ .OpLabel && p.2.opcode ≠ .OpBranch &&
              !(oracle.hasNoSideEffects p.2))).isEmpty &&
          (match b.termInst with
           | none => false
           | some t =>
             match t.operands[0]? with
             | none => false
             | some succ => cleanChain oracle f conv succ fuel)

/-- The function `Apply` produces from `flFunction`: the header branches
straight to the true arm, the arms are chained, and the convergence `OpPhi`
has become an `OpSelect` over condition 95. -/
def flFunctionFlat : FunctionIR :=
  { fnId := 6, typeId := 2, params := [],
    blocks := [⟨50, [⟨.OpBranch, 0, 0, [51]⟩]⟩,
               ⟨51, [⟨.OpBranch, 0, 0, [52]⟩]⟩,
               ⟨52, [⟨.OpBranch, 0, 0, [53]⟩]⟩,
               ⟨53, [⟨.OpSelect, 1, 60, [95, 12, 13]⟩,
                     ⟨.OpReturn, 0, 0, []⟩]⟩] }

/-- The fresh-id requirement of the instruction an `InstrRef` resolves to
(0 for a dangling reference, a case the callers exclude). -/
def neededOf (m : ModuleIR) (r : InstrRef) : Nat :=
  match m.findInstruction r with
  | some inst => numOfFreshIdsNeededByInstruction m inst
  | none => 0

/-- Whether every instruction with an explicit per-instruction fresh-id list
has a list at least as long as its requirement. -/
def mappedListsSufficient (m : ModuleIR) (mapping : List (InstrRef × List Nat)) :
    List InstrRef → Bool
  | [] => true
  | r :: rest =>
      (match mappingLookup mapping r with
       | some ids => decide (neededOf m r ≤ ids.length)
       | none => true) && mappedListsSufficient m mapping rest

/-- The total shortfall: the sum of the requirements of the instructions
without an explicit fresh-id list. -/
def unmappedNeedSum (m : ModuleIR) (mapping : List (InstrRef × List Nat)) :
    List InstrRef → Nat
  | [] => 0
  | r :: rest =>
      (match mappingLookup mapping r with
       | some _ => 0
       | none => neededOf m r) + unmappedNeedSum m mapping rest

/-- The dead-block store before the concrete enclose call: only block 51 is
dead. -/
def encFmC10 : DeadBlockFacts := ⟨[51]⟩

/-- The dead-block store after enclosing the `OpStore` of dead block 51: the
execute block 300 and the merge block 301 are added. -/
def encFm2C10 : DeadBlockFacts := ⟨[301, 300, 51]⟩

/-- The function produced by enclosing the `OpStore` of block 51 of
`flFunctionStore` in a conditional with fresh ids 300 (execute block) and
301 (merge block). -/
def encF2C10 : FunctionIR :=
  { fnId := 6, typeId := 2, params := [],
    blocks := [⟨50, [⟨.OpSelectionMerge, 0, 0, [53]⟩,
                     ⟨.OpBranchConditional, 0, 0, [95, 51, 52]⟩]⟩,
               ⟨51, [⟨.OpSelectionMerge, 0, 0, [301]⟩,
                     ⟨.OpBranchConditional, 0, 0, [95, 300, 301]⟩]⟩,
               ⟨300, [⟨.OpStore, 0, 0, [16, 12]⟩, ⟨.OpBranch, 0, 0, [301]⟩]⟩,
               ⟨301, [⟨.OpBranch, 0, 0, [53]⟩]⟩,
               ⟨52, [⟨.OpBranch, 0, 0, [53]⟩]⟩,
               ⟨53, [⟨.OpPhi, 1, 60, [12, 51, 13, 52]⟩,
                     ⟨.OpReturn, 0, 0, []⟩]⟩] }

/-- The `protobufs::Transformation` record: a tag plus the variant's
submessage.  `emptyMsg` is a default-constructed record with no variant
set. -/
inductive TransformationMessage where
  | emptyMsg
  | mergeFunctionReturns (msg : MergeReturnsMsg)
  | replaceIrrelevantId (msg : ReplaceIrrelevantIdMsg)
  | flattenConditionalBranch (msg : FlattenMsg)
  | addLoopToCreateIntConstantSynonym (msg : LoopSynMsg)
deriving DecidableEq, Repr

/-- `TransformationMergeFunctionReturns::ToMessage` (source lines 601-604):
the body returns a default-constructed `protobufs::Transformation` without
storing the variant's submessage. -/
def toMessageMergeFunctionReturns (_ : MergeReturnsMsg) :
    TransformationMessage :=
  TransformationMessage.emptyMsg

/-- `TransformationReplaceIrrelevantId::ToMessage` (source lines 97-101). -/
def toMessageReplaceIrrelevantId (msg : ReplaceIrrelevantIdMsg) :
    TransformationMessage :=
  TransformationMessage.replaceIrrelevantId msg

/-- `TransformationFlattenConditionalBranch::ToMessage` (source lines
277-282). -/
def toMessageFlattenConditionalBranch (msg : FlattenMsg) :
    TransformationMessage :=
  TransformationMessage.flattenConditionalBranch msg

/-- `TransformationAddLoopToCreateIntConstantSynonym::ToMessage` (source
lines 197-202). -/
def toMessageAddLoopToCreateIntConstantSynonym (msg : LoopSynMsg) :
    TransformationMessage :=
  TransformationMessage.addLoopToCreateIntConstantSynonym msg

/-- Reading a merge-function-returns submessage back from a record (the
replay loader dispatches on the record's variant tag). -/
def mergeReturnsOfMessage : TransformationMessage → Option MergeReturnsMsg
  | .mergeFunctionReturns msg => some msg
  | _ => none

/-- Reading a replace-irrelevant-id submessage back from a record. -/
def replaceIrrelevantIdOfMessage :
    TransformationMessage → Option ReplaceIrrelevantIdMsg
  | .replaceIrrelevantId msg => some msg
  | _ => none

/-- The protobuf-default merge-function-returns message (all ids zero, no
merging info) — what reconstruction would see if it fell back to the absent
submessage's default value. -/
def mrMsgDefault : MergeReturnsMsg := ⟨0, 0, 0, 0, 0, []⟩

/-! ## Theorems -/

/-- The loop-synonym applicability check can never succeed: line 106 of the
source rejects every iteration count that is an integer constant, and for any
other constant line 107 or line 112 dereferences a null pointer. -/
theorem isApplicableLoopSyn_ne_true (m : ModuleIR) (msg : LoopSynMsg) :
    isApplicableLoopSyn m msg ≠ some true := by
  unfold isApplicableLoopSyn
  repeat' split
  all_goals simp_all

/-! ### Concrete inputs for the loop-synonym claims

`loopSynModule` satisfies every documented precondition of the transformation:
integer constants C = 2, I = 14, S = 3 (ids 10, 11, 12), a 32-bit signed
iteration count N = 4 (id 13) with C = I - S * N, signed 32-bit constants 0
and 1 (ids 14, 15), and an insertion block (id 21) with exactly one
predecessor that is not a merge block. -/

/-- C3: the spec says that with existing integer constants C, I, S of one
type (up to sign), a 32-bit iteration count N in [1, 32] with C = I - S * N
componentwise under sign extension, 32-bit signed constants 0 and 1, a
single-predecessor non-merge insertion block and distinct fresh ids, the
loop-synonym `IsApplicable` returns true.  The code returns false on exactly
such an input — line 106 tests `num_iterations->AsIntConstant()` without the
negation its own comment (line 100) demands, rejecting every integer
iteration count — and indeed it can never return true on any input. -/
theorem claim_C3_loop_synonym_precondition_bug :
    isApplicableLoopSyn loopSynModule loopSynMsgGood = some false ∧
    ∀ (m : ModuleIR) (msg : LoopSynMsg), isApplicableLoopSyn m msg ≠ some true := by
  exact ⟨by decide, isApplicableLoopSyn_ne_true⟩

/-! ## FactManager: irrelevant-value facts (fact_manager/irrelevant_value_facts.cpp) -/

theorem runFactOpsFrom_irrelevant_mem (ops : List FactOp)
    (s : IrrelevantValueFacts) (id : Nat) :
    id ∈ (runFactOpsFrom s ops).irrelevant_ids ↔
      FactOp.idIrrelevant id ∈ ops ∨ id ∈ s.irrelevant_ids := by
  induction ops generalizing s with
  | nil => simp [runFactOpsFrom]
  | cons op rest ih =>
    cases op with
    | pointeeIrrelevant p =>
        simp [runFactOpsFrom, IrrelevantValueFacts.AddFactPointeeValueIsIrrelevant, ih]
    | idIrrelevant p =>
        simp only [runFactOpsFrom, ih, IrrelevantValueFacts.AddFactIdIsIrrelevant,
          List.mem_cons, insertSet]
        by_cases hc : p = id <;> by_cases hm : id ∈ s.irrelevant_ids <;>
          split <;> simp_all [List.contains, List.elem_eq_mem] <;> tauto

theorem runFactOpsFrom_pointee_mem (ops : List FactOp)
    (s : IrrelevantValueFacts) (id : Nat) :
    id ∈ (runFactOpsFrom s ops).pointers_to_irrelevant_pointees_ids ↔
      FactOp.pointeeIrrelevant id ∈ ops ∨
        id ∈ s.pointers_to_irrelevant_pointees_ids := by
  induction ops generalizing s with
  | nil => simp [runFactOpsFrom]
  | cons op rest ih =>
    cases op with
    | idIrrelevant p =>
        simp [runFactOpsFrom, IrrelevantValueFacts.AddFactIdIsIrrelevant, ih]
    | pointeeIrrelevant p =>
        simp only [runFactOpsFrom, ih, IrrelevantValueFacts.AddFactPointeeValueIsIrrelevant,
          List.mem_cons, insertSet]
        by_cases hc : p = id <;>
          by_cases hm : id ∈ s.pointers_to_irrelevant_pointees_ids <;>
          split <;> simp_all [List.contains, List.elem_eq_mem] <;> tauto

/-- C9: after any precondition-respecting sequence of `AddFact` calls,
`IdIsIrrelevant` answers true exactly for the ids asserted id-irrelevant,
`PointeeValueIsIrrelevant` exactly for the ids asserted pointee-irrelevant,
the enumerable view (`GetIrrelevantIds`) is exactly the id-irrelevant set,
facts of one kind never change the other kind's answers, and extending the
sequence never removes a fact. -/
theorem claim_C9_fact_manager (m : ModuleIR) (synonymsForId : Nat → List Nat)
    (ops : List FactOp)
    (_hpre : ∀ op ∈ ops, factOpPrecondition m synonymsForId op = true) :
    (∀ id, (runFactOps ops).IdIsIrrelevant id = true ↔
        FactOp.idIrrelevant id ∈ ops) ∧
    (∀ id, (runFactOps ops).PointeeValueIsIrrelevant id = true ↔
        FactOp.pointeeIrrelevant id ∈ ops) ∧
    (∀ id, id ∈ (runFactOps ops).GetIrrelevantIds ↔
        FactOp.idIrrelevant id ∈ ops) ∧
    (∀ p id, (runFactOps (ops ++ [FactOp.pointeeIrrelevant p])).IdIsIrrelevant id =
        (runFactOps ops).IdIsIrrelevant id) ∧
    (∀ p id, (runFactOps (ops ++ [FactOp.idIrrelevant p])).PointeeValueIsIrrelevant id =
        (runFactOps ops).PointeeValueIsIrrelevant id) ∧
    (∀ more id, (runFactOps ops).IdIsIrrelevant id = true →
        (runFactOps (ops ++ more)).IdIsIrrelevant id = true) ∧
    (∀ more id, (runFactOps ops).PointeeValueIsIrrelevant id = true →
        (runFactOps (ops ++ more)).PointeeValueIsIrrelevant id = true) := by
  refine ⟨?_, ?_, ?_, ?_, ?_, ?_, ?_⟩
  · intro id
    simp [runFactOps, IrrelevantValueFacts.IdIsIrrelevant, List.contains, List.elem_eq_mem,
      runFactOpsFrom_irrelevant_mem, IrrelevantValueFacts.emptyStore]
  · intro id
    simp [runFactOps, IrrelevantValueFacts.PointeeValueIsIrrelevant,
      List.contains, List.elem_eq_mem, runFactOpsFrom_pointee_mem, IrrelevantValueFacts.emptyStore]
  · intro id
    simp [runFactOps, IrrelevantValueFacts.GetIrrelevantIds,
      runFactOpsFrom_irrelevant_mem, IrrelevantValueFacts.emptyStore]
  · intro p id
    simp [runFactOps, IrrelevantValueFacts.IdIsIrrelevant, List.contains, List.elem_eq_mem,
      runFactOpsFrom_irrelevant_mem, IrrelevantValueFacts.emptyStore]
  · intro p id
    simp [runFactOps, IrrelevantValueFacts.PointeeValueIsIrrelevant,
      List.contains, List.elem_eq_mem, runFactOpsFrom_pointee_mem, IrrelevantValueFacts.emptyStore]
  · intro more id
    simp only [runFactOps, IrrelevantValueFacts.IdIsIrrelevant, List.contains, List.elem_eq_mem,
      decide_eq_true_eq, runFactOpsFrom_irrelevant_mem, IrrelevantValueFacts.emptyStore,
      List.mem_append]
    tauto
  · intro more id
    simp only [runFactOps, IrrelevantValueFacts.PointeeValueIsIrrelevant,
      List.contains, List.elem_eq_mem, decide_eq_true_eq, runFactOpsFrom_pointee_mem,
      IrrelevantValueFacts.emptyStore, List.mem_append]
    tauto

/-- Witness for C9 at a concrete precondition-respecting sequence. -/
theorem claim_C9_fact_manager_witness :
    (runFactOps [FactOp.idIrrelevant 10, FactOp.pointeeIrrelevant 16]).IdIsIrrelevant 10
        = true ∧
    (runFactOps [FactOp.idIrrelevant 10,
        FactOp.pointeeIrrelevant 16]).PointeeValueIsIrrelevant 16 = true ∧
    (runFactOps [FactOp.idIrrelevant 10, FactOp.pointeeIrrelevant 16]).IdIsIrrelevant 16
        = false := by
  have h := claim_C9_fact_manager factModule (fun _ => [])
    [FactOp.idIrrelevant 10, FactOp.pointeeIrrelevant 16] (by decide)
  refine ⟨(h.1 10).mpr (by simp), (h.2.1 16).mpr (by simp), ?_⟩
  have h16 := h.1 16
  simp at h16
  simp [h16]

/-! ## TransformationReplaceIrrelevantId -/

/-! ### Lemmas about the in-place instruction update -/
theorem find_updBlockInsts_self (label : Nat)
    (h : List Instruction → List Instruction) (bs : List Block) :
    List.find? (fun b => b.labelId == label) (updBlockInsts label h bs)
      = (List.find? (fun b => b.labelId == label) bs).map
          (fun b => ⟨b.labelId, h b.insts⟩) := by
  induction bs with
  | nil => rfl
  | cons b rest ih =>
    by_cases hb : b.labelId = label
    · simp [updBlockInsts, hb]
    · simp only [updBlockInsts, beq_iff_eq, if_neg hb]
      rw [List.find?_cons_of_neg, List.find?_cons_of_neg] <;> simp [hb, ih]

theorem find_updBlockInsts_ne (label label2 : Nat) (hne : label2 ≠ label)
    (h : List Instruction → List Instruction) (bs : List Block) :
    List.find? (fun b => b.labelId == label2) (updBlockInsts label h bs)
      = List.find? (fun b => b.labelId == label2) bs := by
  induction bs with
  | nil => rfl
  | cons b rest ih =>
    by_cases hb : b.labelId = label
    · have hb2 : ¬(b.labelId = label2) := by omega
      have hne2 : ¬(label = label2) := by omega
      simp only [updBlockInsts, beq_iff_eq, if_pos hb]
      rw [List.find?_cons_of_neg, List.find?_cons_of_neg] <;> simp [hb, hb2, hne2]
    · simp only [updBlockInsts, beq_iff_eq, if_neg hb]
      by_cases hb2 : b.labelId = label2
      · rw [List.find?_cons_of_pos, List.find?_cons_of_pos] <;> simp [hb2]
      · rw [List.find?_cons_of_neg, List.find?_cons_of_neg] <;> simp [hb2, ih]

theorem findBlock_updated (f : FunctionIR) (label : Nat)
    (h : List Instruction → List Instruction) :
    ({ f with blocks := updBlockInsts label h f.blocks } : FunctionIR).findBlock label
      = (f.findBlock label).map (fun b => ⟨b.labelId, h b.insts⟩) :=
  find_updBlockInsts_self label h f.blocks

theorem findBlock_updated_ne (f : FunctionIR) (label label2 : Nat)
    (hne : label2 ≠ label) (h : List Instruction → List Instruction) :
    ({ f with blocks := updBlockInsts label h f.blocks } : FunctionIR).findBlock label2
      = f.findBlock label2 :=
  find_updBlockInsts_ne label label2 hne h f.blocks

theorem findBlockInFuncs_updFuncInsts_self (label : Nat)
    (h : List Instruction → List Instruction) (fs : List FunctionIR) :
    findBlockInFuncs (updFuncInsts label h fs) label
      = (findBlockInFuncs fs label).map
          (fun p => ({ p.1 with blocks := updBlockInsts label h p.1.blocks },
                     ⟨p.2.labelId, h p.2.insts⟩)) := by
  induction fs with
  | nil => rfl
  | cons f rest ih =>
    cases hb : f.findBlock label with
    | some b =>
      have hf : (f.findBlock label).isSome := by simp [hb]
      have h2 : ({ f with blocks := updBlockInsts label h f.blocks } :
          FunctionIR).findBlock label = some ⟨b.labelId, h b.insts⟩ := by
        rw [findBlock_updated, hb]; rfl
      simp [updFuncInsts, if_pos hf, findBlockInFuncs, h2, hb]
    | none =>
      have hf : ¬(f.findBlock label).isSome := by simp [hb]
      simp [updFuncInsts, if_neg hf, findBlockInFuncs, hb, ih]

theorem findBlockInFuncs_updFuncInsts_ne_snd (label label2 : Nat)
    (hne : label2 ≠ label) (h : List Instruction → List Instruction)
    (fs : List FunctionIR) :
    (findBlockInFuncs (updFuncInsts label h fs) label2).map Prod.snd
      = (findBlockInFuncs fs label2).map Prod.snd := by
  induction fs with
  | nil => rfl
  | cons f rest ih =>
    by_cases hf : (f.findBlock label).isSome
    · have h2 := findBlock_updated_ne f label label2 hne h
      simp only [updFuncInsts, if_pos hf, findBlockInFuncs, h2]
      cases hx : f.findBlock label2 <;> simp [hx]
    · simp only [updFuncInsts, if_neg hf, findBlockInFuncs]
      cases hx : f.findBlock label2 <;> simp [hx, ih]

theorem updateIdx_getElem_self (g : Instruction → Instruction)
    (l : List Instruction) (n : Nat) :
    (updateIdx g l n)[n]? = (l[n]?).map g := by
  induction l generalizing n with
  | nil => simp [updateIdx]
  | cons i rest ih =>
    cases n with
    | zero => simp [updateIdx]
    | succ k => simp [updateIdx, ih]

theorem updateIdx_getElem_ne (g : Instruction → Instruction)
    (l : List Instruction) (n j : Nat) (hne : j ≠ n) :
    (updateIdx g l n)[j]? = l[j]? := by
  induction l generalizing n j with
  | nil => simp [updateIdx]
  | cons i rest ih =>
    cases n with
    | zero =>
      cases j with
      | zero => omega
      | succ k => simp [updateIdx]
    | succ nk =>
      cases j with
      | zero => simp [updateIdx]
      | succ k => simp only [updateIdx, List.getElem?_cons_succ]; exact ih nk k (by omega)

theorem updateIdx_eq_of_fix (g : Instruction → Instruction)
    (l : List Instruction) (n : Nat)
    (hfix : ∀ x, l[n]? = some x → g x = x) : updateIdx g l n = l := by
  induction l generalizing n with
  | nil => rfl
  | cons i rest ih =>
    cases n with
    | zero =>
      have : g i = i := hfix i (by simp)
      simp [updateIdx, this]
    | succ k =>
      simp only [updateIdx, List.cons.injEq, true_and]
      exact ih k (fun x hx => hfix x (by simpa using hx))

theorem list_set_same {α : Type} (l : List α) (n : Nat) (a : α)
    (h : l[n]? = some a) : l.set n a = l := by
  induction l generalizing n with
  | nil => rfl
  | cons x rest ih =>
    cases n with
    | zero => simp at h; simp [h]
    | succ k => simp only [List.set_cons_succ, List.cons.injEq, true_and]
                exact ih k (by simpa using h)

theorem updBlockInsts_eq_self (label : Nat)
    (h : List Instruction → List Instruction) (bs : List Block)
    (hfix : ∀ b, List.find? (fun b => b.labelId == label) bs = some b →
      h b.insts = b.insts) : updBlockInsts label h bs = bs := by
  induction bs with
  | nil => rfl
  | cons b rest ih =>
    by_cases hb : b.labelId = label
    · have hins := hfix b (by simp [hb])
      simp only [updBlockInsts, beq_iff_eq, if_pos hb, hins]
    · simp only [updBlockInsts, beq_iff_eq, if_neg hb, List.cons.injEq, true_and]
      exact ih (fun b2 hb2 => hfix b2 (by rw [List.find?_cons_of_neg] <;> simp [hb, hb2]))

theorem updFuncInsts_eq_self (label : Nat)
    (h : List Instruction → List Instruction) (fs : List FunctionIR)
    (hfix : ∀ f b, findBlockInFuncs fs label = some (f, b) → h b.insts = b.insts) :
    updFuncInsts label h fs = fs := by
  induction fs with
  | nil => rfl
  | cons f rest ih =>
    by_cases hf : (f.findBlock label).isSome
    · obtain ⟨b, hb⟩ := Option.isSome_iff_exists.mp hf
      have hbi : h b.insts = b.insts := hfix f b (by simp [findBlockInFuncs, hb])
      have : updBlockInsts label h f.blocks = f.blocks := by
        apply updBlockInsts_eq_self
        intro b2 hb2
        simp only [FunctionIR.findBlock] at hb
        rw [hb] at hb2
        cases hb2
        exact hbi
      simp [updFuncInsts, if_pos hf, this]
    · have hnone : f.findBlock label = none := by
        cases hx : f.findBlock label
        · rfl
        · rw [hx] at hf; simp at hf
      simp only [updFuncInsts, if_neg hf, List.cons.injEq, true_and]
      exact ih (fun f2 b2 hfb => hfix f2 b2 (by simp [findBlockInFuncs, hnone, hfb]))

theorem findInstruction_setInOperandAt_self (m : ModuleIR) (r : InstrRef)
    (idx val : Nat) :
    (m.setInOperandAt r idx val).findInstruction r
      = (m.findInstruction r).map (fun i => i.setInOperand idx val) := by
  show ((findBlockInFuncs (updFuncInsts r.blockLabel _ m.functions)
      r.blockLabel).bind (fun p => p.2.insts[r.instIdx]?)) = _
  rw [findBlockInFuncs_updFuncInsts_self]
  cases hx : findBlockInFuncs m.functions r.blockLabel with
  | none => simp [ModuleIR.findInstruction, ModuleIR.maybeFindBlock, hx]
  | some p =>
    simp [ModuleIR.findInstruction, ModuleIR.maybeFindBlock, hx, updateIdx_getElem_self]

theorem findInstruction_setInOperandAt_ne (m : ModuleIR) (r r2 : InstrRef)
    (hne : r2 ≠ r) (idx val : Nat) :
    (m.setInOperandAt r idx val).findInstruction r2 = m.findInstruction r2 := by
  by_cases hl : r2.blockLabel = r.blockLabel
  · have hidx : r2.instIdx ≠ r.instIdx := by
      intro hca
      exact hne (by cases r2; cases r; simp_all)
    show ((findBlockInFuncs (updFuncInsts r.blockLabel _ m.functions)
        r2.blockLabel).bind (fun p => p.2.insts[r2.instIdx]?)) = _
    rw [hl, findBlockInFuncs_updFuncInsts_self]
    cases hx : findBlockInFuncs m.functions r.blockLabel with
    | none => simp [ModuleIR.findInstruction, ModuleIR.maybeFindBlock, hl, hx]
    | some p =>
      simp [ModuleIR.findInstruction, ModuleIR.maybeFindBlock, hl, hx,
        updateIdx_getElem_ne _ _ _ _ hidx]
  · have h2 := findBlockInFuncs_updFuncInsts_ne_snd r.blockLabel r2.blockLabel hl
      (fun insts => updateIdx (fun i => i.setInOperand idx val) insts r.instIdx)
      m.functions
    show ((findBlockInFuncs (updFuncInsts r.blockLabel
        (fun insts => updateIdx (fun i => i.setInOperand idx val) insts r.instIdx)
        m.functions) r2.blockLabel).bind (fun p => p.2.insts[r2.instIdx]?)) = _
    cases hA : findBlockInFuncs (updFuncInsts r.blockLabel
        (fun insts => updateIdx (fun i => i.setInOperand idx val) insts r.instIdx)
        m.functions) r2.blockLabel with
    | none =>
      rw [hA] at h2
      cases hB : findBlockInFuncs m.functions r2.blockLabel with
      | none => simp [ModuleIR.findInstruction, ModuleIR.maybeFindBlock, hB]
      | some q => rw [hB] at h2; simp at h2
    | some p =>
      rw [hA] at h2
      cases hB : findBlockInFuncs m.functions r2.blockLabel with
      | none => rw [hB] at h2; simp at h2
      | some q =>
        rw [hB] at h2
        simp at h2
        simp [ModuleIR.findInstruction, ModuleIR.maybeFindBlock, hB, h2]

/-- C8 (amended): for replace-irrelevant-id, `IsApplicable` returns false when
the id of interest is not marked irrelevant, and when (with both ids defined)
its type is a pointer type; a successful `Apply` changes exactly the one
named operand of the one named instruction; and a second application is not a
no-op rewrite: when the replacement differs from the id of interest the use
descriptor no longer resolves (the operand now holds the replacement), so the
second `Apply` dereferences null, while when the replacement equals the id of
interest `Apply` leaves the module unchanged. -/
theorem claim_C8_replace_irrelevant_id_amended (m : ModuleIR) (ctx : RICtx)
    (msg : ReplaceIrrelevantIdMsg) :
    (ctx.facts.IdIsIrrelevant msg.id_use_descriptor.id_of_interest = false →
      isApplicableReplaceIrrelevantId m ctx msg = some false) ∧
    (∀ def_interest def_replacement t,
      m.getDef msg.id_use_descriptor.id_of_interest = some def_interest →
      m.getDef msg.replacement_id = some def_replacement →
      lookupA m.types def_interest.typeId = some t →
      t.isPointer = true →
      isApplicableReplaceIrrelevantId m ctx msg = some false) ∧
    (∀ m1, applyReplaceIrrelevantId m msg = some m1 →
      (∀ r2, r2 ≠ msg.id_use_descriptor.enclosing_instruction →
        m1.findInstruction r2 = m.findInstruction r2) ∧
      (m1.findInstruction msg.id_use_descriptor.enclosing_instruction =
        (m.findInstruction msg.id_use_descriptor.enclosing_instruction).map
          (fun i => i.setInOperand msg.id_use_descriptor.in_operand_index
            msg.replacement_id)) ∧
      (msg.replacement_id ≠ msg.id_use_descriptor.id_of_interest →
        applyReplaceIrrelevantId m1 msg = none) ∧
      (msg.replacement_id = msg.id_use_descriptor.id_of_interest → m1 = m)) := by
  refine ⟨?_, ?_, ?_⟩
  · intro h
    simp [isApplicableReplaceIrrelevantId, h]
  · intro def_interest def_replacement t hInt hRep hT hPtr
    by_cases hirr : ctx.facts.IdIsIrrelevant msg.id_use_descriptor.id_of_interest
    · cases hf : findInstructionContainingUse m msg.id_use_descriptor with
      | none => simp [isApplicableReplaceIrrelevantId, hirr, hf]
      | some u =>
        by_cases hty : def_interest.typeId = def_replacement.typeId
        · have hT2 : lookupA m.types def_replacement.typeId = some t := by
            rw [← hty]; exact hT
          simp [isApplicableReplaceIrrelevantId, hirr, hf, hInt, hRep, hT, hT2,
            hPtr, hty]
        · simp [isApplicableReplaceIrrelevantId, hirr, hf, hInt, hRep, hty]
    · have hirr2 : ctx.facts.IdIsIrrelevant msg.id_use_descriptor.id_of_interest
          = false := by simpa using hirr
      simp [isApplicableReplaceIrrelevantId, hirr2]
  · intro m1 happ
    cases hf : findInstructionContainingUse m msg.id_use_descriptor with
    | none => rw [applyReplaceIrrelevantId, hf] at happ; cases happ
    | some i0 =>
      rw [applyReplaceIrrelevantId, hf] at happ
      have hm1 : m1 = m.setInOperandAt msg.id_use_descriptor.enclosing_instruction
          msg.id_use_descriptor.in_operand_index msg.replacement_id := by
        cases happ; rfl
      -- unpack the successful descriptor resolution
      rw [findInstructionContainingUse] at hf
      cases hfi : m.findInstruction msg.id_use_descriptor.enclosing_instruction with
      | none => rw [hfi] at hf; cases hf
      | some inst =>
        rw [hfi] at hf
        simp only [Option.some_bind] at hf
        cases hop : inst.operands[msg.id_use_descriptor.in_operand_index]? with
        | none => rw [hop] at hf; cases hf
        | some v =>
          rw [hop] at hf
          simp only [Option.some_bind] at hf
          by_cases hv : v = msg.id_use_descriptor.id_of_interest
          · rw [if_pos hv] at hf
            refine ⟨?_, ?_, ?_, ?_⟩
            · intro r2 hr2
              rw [hm1]
              exact findInstruction_setInOperandAt_ne m _ r2 hr2 _ _
            · rw [hm1, findInstruction_setInOperandAt_self, hfi]
            · intro hrepne
              have hlen : msg.id_use_descriptor.in_operand_index <
                  inst.operands.length := by
                rcases List.getElem?_eq_some_iff.mp hop with ⟨hh, _⟩
                exact hh
              have hfi1 : m1.findInstruction msg.id_use_descriptor.enclosing_instruction
                  = some (inst.setInOperand msg.id_use_descriptor.in_operand_index
                      msg.replacement_id) := by
                rw [hm1, findInstruction_setInOperandAt_self, hfi]
                rfl
              rw [applyReplaceIrrelevantId, findInstructionContainingUse, hfi1]
              have hgot : (inst.setInOperand msg.id_use_descriptor.in_operand_index
                  msg.replacement_id).operands[msg.id_use_descriptor.in_operand_index]?
                  = some msg.replacement_id := by
                simp [Instruction.setInOperand, List.getElem?_set_self hlen]
              simp only [Option.some_bind]
              rw [hgot]
              simp only [Option.some_bind]
              rw [if_neg hrepne]
            · intro hrepeq
              rw [hm1]
              show { m with functions := updFuncInsts _ _ m.functions } = m
              have hupd : updFuncInsts msg.id_use_descriptor.enclosing_instruction.blockLabel
                  (fun insts => updateIdx
                    (fun i => i.setInOperand msg.id_use_descriptor.in_operand_index
                      msg.replacement_id) insts
                    msg.id_use_descriptor.enclosing_instruction.instIdx)
                  m.functions = m.functions := by
                apply updFuncInsts_eq_self
                intro f0 b0 hfb
                apply updateIdx_eq_of_fix
                intro x hx
                have hbx : m.findInstruction msg.id_use_descriptor.enclosing_instruction
                    = some x := by
                  rw [ModuleIR.findInstruction, ModuleIR.maybeFindBlock, hfb]
                  simpa using hx
                rw [hfi] at hbx
                have hxeq : x = inst := by
                  injection hbx with h3
                  exact h3.symm
                have hsame : x.operands.set msg.id_use_descriptor.in_operand_index
                    msg.replacement_id = x.operands := by
                  apply list_set_same
                  rw [hxeq, hrepeq, ← hv]
                  exact hop
                simp [Instruction.setInOperand, hsame]
              rw [hupd]
          · rw [if_neg hv] at hf; cases hf

/-- C8 counterexample: the claim says applying the transformation twice in
succession leaves the module equal to applying it once, the second `Apply`
rewriting the same operand to the same value.  On this applicable instance the
first `Apply` rewrites the operand to the replacement id, after which the use
descriptor no longer resolves (the operand is no longer the id of interest),
so the second `Apply` dereferences a null pointer instead of rewriting. -/
theorem claim_C8_idempotence_counterexample :
    isApplicableReplaceIrrelevantId riModule riCtx riMsg = some true ∧
    applyReplaceIrrelevantId riModule riMsg = some riModuleOnce ∧
    applyReplaceIrrelevantId riModuleOnce riMsg = none := by
  refine ⟨by decide, by decide, by decide⟩

/-- Witness for the amended C8 at concrete inputs: its hypotheses are
satisfiable and its conclusions evaluate as stated. -/
theorem claim_C8_replace_irrelevant_id_amended_witness :
    isApplicableReplaceIrrelevantId riModule
      ⟨⟨[], []⟩, fun _ _ => true, fun _ _ _ => true⟩ riMsg = some false ∧
    isApplicableReplaceIrrelevantId riPtrModule riCtx riMsg = some false ∧
    applyReplaceIrrelevantId riModuleOnce riMsg = none ∧
    (riModule.setInOperandAt ⟨30, 0⟩ 0 11).findInstruction ⟨30, 1⟩ =
      riModule.findInstruction ⟨30, 1⟩ := by
  refine ⟨?_, ?_, ?_, ?_⟩
  · exact (claim_C8_replace_irrelevant_id_amended riModule
      ⟨⟨[], []⟩, fun _ _ => true, fun _ _ _ => true⟩ riMsg).1 (by decide)
  · exact (claim_C8_replace_irrelevant_id_amended riPtrModule riCtx riMsg).2.1
      ⟨.OpVariable, 4, 10, []⟩ ⟨.OpVariable, 4, 11, []⟩ (.ptrT (.intT 32 true))
      (by decide) (by decide) (by decide) (by decide)
  · exact ((claim_C8_replace_irrelevant_id_amended riModule riCtx riMsg).2.2
      riModuleOnce (by decide)).2.2.1 (by decide)
  · exact ((claim_C8_replace_irrelevant_id_amended riModule riCtx riMsg).2.2
      riModuleOnce (by decide)).1 ⟨30, 1⟩ (by decide)

/-! ## TransformationMergeFunctionReturns -/

/-- C1: the spec says `Apply` replaces each reachable return with a branch to
its innermost enclosing loop's merge block when one exists, and to the new
outer return block only when it is unenclosed.  On `mrFunction`, the return
in block 22 is enclosed by the loop whose merge block is 24 — the code even
records 22 as a returning predecessor of 24 — yet its return is rewritten to
branch to the outer return block 201, because line 311 overwrites
`merge_block_id` with `outer_return_id()` unconditionally, contradicting the
comment above it. -/
theorem claim_C1_return_redirect_bug :
    mrOracle.loopMergeBlock 22 = 24 ∧ (24 : Nat) ≠ 201 ∧
    (mrAdjustReturnBlocks mrOracle false 90 201 [22, 25] mrFunction
        (mrInitMergeMap mrOracle [22, 25]) []).map
      (fun r => ((r.1.findBlock 22).bind Block.termInst,
                 (r.1.findBlock 25).bind Block.termInst,
                 lookupA r.2.1 24)) =
      some (some ⟨.OpBranch, 0, 0, [201]⟩,
            some ⟨.OpBranch, 0, 0, [201]⟩,
            some [(22, (10, 90))]) := by
  refine ⟨by decide, by decide, by rfl⟩

/-- C5: the spec says that on a function with K reachable returns on which the
transformation is applicable, `Apply` yields exactly one return reached with
the original value on every path.  `mrFunction` has K = 2 reachable returns
and `IsApplicable` is true, but `Apply` crashes: the merge-block list of
line 320 is constructed with a zero element per map entry, and processing
block 0 pops an empty overflow source and dereferences a null
`get_instr_block(0)` — nothing is produced at all (and the loop-enclosed
return had already been redirected past its loop's merge block, so its value
could not have reached the outer value-merge).  On the loop-free variant the
mutation does produce a single-return function with the original values
value-merged at the single return. -/
theorem claim_C5_single_return_bug :
    countReturns mrFunction = 2 ∧
    isApplicableMergeReturns mrModule mrOracle (fun _ _ => true) mrMsgGood
      = some true ∧
    applyMergeReturns mrModule mrOracle mrMsgGood = none ∧
    isApplicableMergeReturns mrModuleNoLoop mrOracleZero (fun _ _ => true)
      mrMsgNoLoop = some true ∧
    applyMergeReturns mrModuleNoLoop mrOracleZero mrMsgNoLoop
      = some mrFunctionNoLoopMerged ∧
    countReturns mrFunctionNoLoopMerged = 1 := by
  refine ⟨by decide, by decide, by decide, by decide, by decide, by decide⟩

/-! ## TransformationFlattenConditionalBranch -/

/-- C2: the spec says that for every variant, a duplicated or already-defined
fresh-id argument makes `IsApplicable` return false.  Flatten and
merge-function-returns do return false (second and third conjuncts), but the
loop-synonym variant calls `CheckIdIsFreshAndNotUsedByThisTransformation` and
discards its result (source lines 175-189), so the duplicate ids in
`loopSynMsgDup` can never cause the required false: on `loopSynModuleCrash`
(iteration count bound to a Boolean constant) the check crashes on a null
`AsInteger()` at line 107 before the freshness loop is even reached, instead
of returning false. -/
theorem claim_C2_fresh_id_check_discarded :
    isApplicableLoopSyn loopSynModuleCrash loopSynMsgDup = none ∧
    isApplicableFlatten flModule flOracle ⟨50, [], [100, 100]⟩ 100 = some false ∧
    isApplicableMergeReturns mrModule mrOracle (fun _ _ => true)
      ⟨5, 200, 200, 202, 10, [⟨24, 210, 211, []⟩]⟩ = some false := by
  refine ⟨by decide, by decide, by decide⟩

/-- C10: dead-block propagation in `EncloseInstructionInConditional`: when
the block being split carries a `BlockIsDead` fact, the execute block, the
new merge block and (for a non-void result) the alternative block are all
recorded dead and no fact is lost; when it does not, the fact store is left
unchanged. -/
theorem claim_C10_dead_block_propagation (m : ModuleIR) (fm : DeadBlockFacts)
    (f : FunctionIR) (blockLabel : Nat) (instruction : Instruction)
    (fresh_ids : List Nat) (condition_id : Nat) (exec_if_cond_true : Bool)
    (f2 : FunctionIR) (fm2 : DeadBlockFacts) (mergeLabel : Nat)
    (happ : encloseInstructionInConditional m fm f blockLabel instruction
      fresh_ids condition_id exec_if_cond_true = some (f2, fm2, mergeLabel))
    (id0 id1 : Nat) (h0 : fresh_ids[0]? = some id0)
    (h1 : fresh_ids[1]? = some id1) :
    (fm.BlockIsDead blockLabel = true →
      fm2.BlockIsDead id0 = true ∧ fm2.BlockIsDead id1 = true ∧
      (numOfFreshIdsNeededByInstruction m instruction = 5 →
        ∀ id2, fresh_ids[2]? = some id2 → fm2.BlockIsDead id2 = true) ∧
      (∀ id, fm.BlockIsDead id = true → fm2.BlockIsDead id = true)) ∧
    (fm.BlockIsDead blockLabel = false → fm2 = fm) := by
  rw [encloseInstructionInConditional] at happ
  cases hfb : f.findBlock blockLabel with
  | none => simp [hfb] at happ
  | some block =>
    simp only [hfb] at happ
    cases hix : block.insts.indexOf? instruction with
    | none => simp [hix] at happ
    | some idx =>
      simp only [hix, h0, h1] at happ
      by_cases hdead : fm.BlockIsDead blockLabel
      · by_cases h5 : numOfFreshIdsNeededByInstruction m instruction = 5
        · cases h2 : fresh_ids[2]? with
          | none => simp [hdead, h5, h2] at happ
          | some id2 =>
            cases h3 : fresh_ids[3]? with
            | none => simp [hdead, h5, h2, h3] at happ
            | some id3 =>
              cases h4 : fresh_ids[4]? with
              | none => simp [hdead, h5, h2, h3, h4] at happ
              | some id4 =>
                simp only [hdead, h5, h2, h3, h4, if_true, if_pos] at happ
                have hfm : fm2 = ((fm.AddFactBlockIsDead id0).AddFactBlockIsDead
                    id1).AddFactBlockIsDead id2 := by
                  simp at happ
                  exact happ.2.1.symm
                refine ⟨fun _ => ?_, fun hcontra => by simp_all⟩
                subst hfm
                refine ⟨?_, ?_, ?_, ?_⟩ <;>
                  simp_all [DeadBlockFacts.BlockIsDead,
                    DeadBlockFacts.AddFactBlockIsDead, insertSet] <;>
                  intros <;>
                  (repeat' split) <;>
                  simp_all [List.contains, List.elem_eq_mem]
        · simp only [hdead, h5, if_true, if_false, if_neg, if_pos] at happ
          have hfm : fm2 = (fm.AddFactBlockIsDead id0).AddFactBlockIsDead id1 := by
            simp at happ
            exact happ.2.1.symm
          refine ⟨fun _ => ?_, fun hcontra => by simp_all⟩
          subst hfm
          refine ⟨?_, ?_, fun hc => absurd hc h5, ?_⟩ <;>
            simp_all [DeadBlockFacts.BlockIsDead,
              DeadBlockFacts.AddFactBlockIsDead, insertSet] <;>
            intros <;>
            (repeat' split) <;>
            simp_all [List.contains, List.elem_eq_mem]
      · have hdf : fm.BlockIsDead blockLabel = false := by simp_all
        by_cases h5 : numOfFreshIdsNeededByInstruction m instruction = 5
        · cases h2 : fresh_ids[2]? with
          | none => simp [hdf, h5, h2] at happ
          | some id2 =>
            cases h3 : fresh_ids[3]? with
            | none => simp [hdf, h5, h2, h3] at happ
            | some id3 =>
              cases h4 : fresh_ids[4]? with
              | none => simp [hdf, h5, h2, h3, h4] at happ
              | some id4 =>
                simp only [hdf, h5, h2, h3, h4] at happ
                simp at happ
                refine ⟨fun hc => by simp_all, fun _ => ?_⟩
                simp_all
        · simp only [hdf, h5] at happ
          simp at happ
          refine ⟨fun hc => by simp_all, fun _ => ?_⟩
          simp_all

/-- `cleanChain` is monotone in its fuel. -/
theorem cleanChain_mono (oracle : FlattenOracle) (f : FunctionIR) (conv : Nat) :
    ∀ (fuel x : Nat), cleanChain oracle f conv x fuel = true →
      cleanChain oracle f conv x (fuel + 1) = true := by
  intro fuel
  induction fuel with
  | zero => intro x h; simp [cleanChain] at h
  | succ n ih =>
    intro x h
    rw [cleanChain] at h
    rw [cleanChain]
    by_cases hx : x = conv
    · simp [hx]
    · simp only [if_neg hx] at h ⊢
      cases hfb : f.findBlock x with
      | none => simp only [hfb] at h; exact absurd h (by simp)
      | some b =>
        simp only [hfb] at h ⊢
        simp only [Bool.and_eq_true] at h ⊢
        refine ⟨h.1, ?_⟩
        obtain ⟨-, h2⟩ := h
        cases ht : b.termInst with
        | none => simp only [ht] at h2; exact absurd h2 (by simp)
        | some t =>
          simp only [ht] at h2 ⊢
          cases hop : t.operands[0]? with
          | none => simp only [hop] at h2; exact absurd h2 (by simp)
          | some succ =>
            simp only [hop] at h2 ⊢
            exact ih succ h2

/-- Inserting into the needs-ids set never yields the empty set. -/
theorem needsInsert_ne_nil (r : InstrRef) (needs : List InstrRef) :
    needsInsert r needs ≠ [] := by
  rw [needsInsert]
  split
  · intro h
    subst h
    simp_all [List.contains]
  · simp

/-- A block scan that ends with an empty needs-ids set started empty and
found no side-effecting instruction (besides labels and plain branches). -/
theorem flattenCheckInsts_nil (m : ModuleIR) (oracle : FlattenOracle)
    (lbl : Nat) :
    ∀ (pairs : List (Nat × Instruction)) (needs : List InstrRef),
      flattenCheckInsts m oracle lbl pairs needs = some (some []) →
      needs = [] ∧ pairs.filter (fun p =>
        p.2.opcode ≠ .OpLabel && p.2.opcode ≠ .OpBranch &&
          !(oracle.hasNoSideEffects p.2)) = [] := by
  intro pairs
  induction pairs with
  | nil =>
    intro needs h
    rw [flattenCheckInsts] at h
    simp at h
    exact ⟨h, rfl⟩
  | cons p rest ih =>
    intro needs h
    obtain ⟨idx, inst⟩ := p
    rw [flattenCheckInsts] at h
    by_cases hlab : inst.opcode = .OpLabel
    · simp only [if_pos hlab] at h
      obtain ⟨h1, h2⟩ := ih needs h
      exact ⟨h1, by simpa [List.filter_cons, hlab] using h2⟩
    · simp only [if_neg hlab] at h
      by_cases hbr : inst.isBranch = true
      · simp only [if_pos hbr] at h
        by_cases hob : inst.opcode = .OpBranch
        · simp only [if_pos hob] at h
          obtain ⟨h1, h2⟩ := ih needs h
          exact ⟨h1, by simpa [List.filter_cons, hob] using h2⟩
        · simp only [if_neg hob] at h
          simp at h
      · simp only [if_neg hbr] at h
        cases hch : instructionCanBeHandled m oracle inst with
        | none => simp only [hch] at h; exact absurd h (by simp)
        | some flag =>
          simp only [hch] at h
          cases flag with
          | false => simp at h
          | true =>
            simp only at h
            by_cases hsef : oracle.hasNoSideEffects inst = true
            · simp [hsef] at h
              obtain ⟨h1, h2⟩ := ih needs h
              exact ⟨h1, by simpa [List.filter_cons, hsef] using h2⟩
            · have hsef2 : oracle.hasNoSideEffects inst = false :=
                Bool.eq_false_iff.mpr hsef
              simp [hsef2] at h
              obtain ⟨h1, -⟩ := ih _ h
              exact absurd h1 (needsInsert_ne_nil _ _)

/-- The block scan only ever grows the needs-ids set. -/
theorem flattenCheckInsts_mono (m : ModuleIR) (oracle : FlattenOracle)
    (lbl : Nat) :
    ∀ (pairs : List (Nat × Instruction)) (needs needs2 : List InstrRef),
      flattenCheckInsts m oracle lbl pairs needs = some (some needs2) →
      ∀ a ∈ needs, a ∈ needs2 := by
  intro pairs
  induction pairs with
  | nil =>
    intro needs needs2 h
    rw [flattenCheckInsts] at h
    simp at h
    subst h
    intro a ha
    exact ha
  | cons p rest ih =>
    intro needs needs2 h
    obtain ⟨idx, inst⟩ := p
    rw [flattenCheckInsts] at h
    by_cases hlab : inst.opcode = .OpLabel
    · simp only [if_pos hlab] at h
      exact ih needs needs2 h
    · simp only [if_neg hlab] at h
      by_cases hbr : inst.isBranch = true
      · simp only [if_pos hbr] at h
        by_cases hob : inst.opcode = .OpBranch
        · simp only [if_pos hob] at h
          exact ih needs needs2 h
        · simp only [if_neg hob] at h
          simp at h
      · simp only [if_neg hbr] at h
        cases hch : instructionCanBeHandled m oracle inst with
        | none => simp only [hch] at h; exact absurd h (by simp)
        | some flag =>
          simp only [hch] at h
          cases flag with
          | false => simp at h
          | true =>
            simp only at h
            by_cases hsef : oracle.hasNoSideEffects inst = true
            · simp [hsef] at h
              exact ih needs needs2 h
            · have hsef2 : oracle.hasNoSideEffects inst = false :=
                Bool.eq_false_iff.mpr hsef
              simp [hsef2] at h
              intro a ha
              refine ih _ needs2 h a ?_
              rw [needsInsert]
              split
              · exact ha
              · exact List.mem_append_left _ ha

/-- The breadth-first region check only ever grows the needs-ids set. -/
theorem flattenBfs_mono (m : ModuleIR) (oracle : FlattenOracle)
    (f : FunctionIR) (conv : Nat) :
    ∀ (fuel : Nat) (q : List Nat) (needs : List InstrRef) (flag : Bool)
      (needsOut : List InstrRef),
      flattenBfs m oracle f conv q needs fuel = some (flag, needsOut) →
      ∀ a ∈ needs, a ∈ needsOut := by
  intro fuel
  induction fuel with
  | zero =>
    intro q needs flag needsOut h
    cases q with
    | nil =>
      rw [flattenBfs] at h
      simp at h
      rw [h.2]
      intro a ha
      exact ha
    | cons x rest => simp [flattenBfs] at h
  | succ n ih =>
    intro q needs flag needsOut h
    cases q with
    | nil =>
      rw [flattenBfs] at h
      simp at h
      rw [h.2]
      intro a ha
      exact ha
    | cons x rest =>
      rw [flattenBfs] at h
      by_cases hx : x = conv
      · simp only [if_pos hx] at h
        exact ih rest needs flag needsOut h
      · simp only [if_neg hx] at h
        cases hfb : f.findBlock x with
        | none => simp only [hfb] at h; exact absurd h (by simp)
        | some b =>
          simp only [hfb] at h
          by_cases hmi : b.mergeInst.isSome = true
          · simp only [hmi, if_pos] at h
            simp at h
            rw [h.2]
            intro a ha
            exact ha
          · simp only [Bool.not_eq_true] at hmi
            simp only [hmi] at h
            simp only [Bool.false_eq_true, if_false] at h
            cases hci : flattenCheckInsts m oracle x b.insts.enum needs with
            | none => simp only [hci] at h; exact absurd h (by simp)
            | some onest =>
              simp only [hci] at h
              cases onest with
              | none =>
                simp only at h
                simp at h
                rw [h.2]
                intro a ha
                exact ha
              | some needs2 =>
                simp only at h
                cases ht : b.termInst with
                | none => simp only [ht] at h; exact absurd h (by simp)
                | some t =>
                  simp only [ht] at h
                  cases hop : t.operands[0]? with
                  | none => simp only [hop] at h; exact absurd h (by simp)
                  | some succ =>
                    simp only [hop] at h
                    intro a ha
                    exact ih _ needs2 flag needsOut h a
                      (flattenCheckInsts_mono m oracle x b.insts.enum needs
                        needs2 hci a ha)

/-- A successful breadth-first check with an empty needs-ids set makes every
queued block the head of a clean chain. -/
theorem flattenBfs_cleanChain (m : ModuleIR) (oracle : FlattenOracle)
    (f : FunctionIR) (conv : Nat) :
    ∀ (fuel : Nat) (q : List Nat) (needs : List InstrRef),
      flattenBfs m oracle f conv q needs fuel = some (true, []) →
      ∀ x ∈ q, cleanChain oracle f conv x fuel = true := by
  intro fuel
  induction fuel with
  | zero =>
    intro q needs h x hx
    cases q with
    | nil => simp at hx
    | cons y rest => simp [flattenBfs] at h
  | succ n ih =>
    intro q needs h x hx
    cases q with
    | nil => simp at hx
    | cons y rest =>
      rw [flattenBfs] at h
      by_cases hy : y = conv
      · simp only [if_pos hy] at h
        rw [List.mem_cons] at hx
        rcases hx with rfl | hx
        · rw [cleanChain]
          simp [hy]
        · exact cleanChain_mono oracle f conv n x (ih rest needs h x hx)
      · simp only [if_neg hy] at h
        cases hfb : f.findBlock y with
        | none => simp only [hfb] at h; exact absurd h (by simp)
        | some b =>
          simp only [hfb] at h
          by_cases hmi : b.mergeInst.isSome = true
          · simp only [hmi, if_pos] at h
            simp at h
          · simp only [Bool.not_eq_true] at hmi
            simp only [hmi, Bool.false_eq_true, if_false] at h
            cases hci : flattenCheckInsts m oracle y b.insts.enum needs with
            | none => simp only [hci] at h; exact absurd h (by simp)
            | some onest =>
              simp only [hci] at h
              cases onest with
              | none => simp only at h; simp at h
              | some needs2 =>
                simp only at h
                cases ht : b.termInst with
                | none => simp only [ht] at h; exact absurd h (by simp)
                | some t =>
                  simp only [ht] at h
                  cases hop : t.operands[0]? with
                  | none => simp only [hop] at h; exact absurd h (by simp)
                  | some succ =>
                    simp only [hop] at h
                    have hneeds2 : needs2 = [] := by
                      have hmono := flattenBfs_mono m oracle f conv n
                        (rest ++ [succ]) needs2 true [] h
                      exact List.eq_nil_iff_forall_not_mem.mpr
                        (fun a ha => by simpa using hmono a ha)
                    subst hneeds2
                    obtain ⟨-, hfilter⟩ :=
                      flattenCheckInsts_nil m oracle y b.insts.enum needs hci
                    rw [List.mem_cons] at hx
                    rcases hx with rfl | hx
                    · rw [cleanChain]
                      simp only [if_neg hy, hfb]
                      have h1 : b.mergeInst.isNone = true := by
                        rw [Option.isNone_iff_eq_none]
                        exact Option.not_isSome_iff_eq_none.mp (by simp [hmi])
                      rw [h1]
                      have h2 : (b.insts.enum.filter (fun p =>
                          p.2.opcode ≠ .OpLabel && p.2.opcode ≠ .OpBranch &&
                            !(oracle.hasNoSideEffects p.2))).isEmpty = true := by
                        rw [hfilter]
                        rfl
                      rw [h2]
                      simp only [ht, hop, Bool.true_and]
                      exact ih (rest ++ [succ]) [] h succ (by simp)
                    · exact cleanChain_mono oracle f conv n x
                        (ih (rest ++ [succ]) [] h x (List.mem_append_left _ hx))

/-- Removing a block is a permutation. -/
theorem extractBlock_perm :
    ∀ (l : List Block) (id : Nat) (b : Block) (rest : List Block),
      extractBlock l id = some (b, rest) → l.Perm (b :: rest) ∧ b.labelId = id := by
  intro l
  induction l with
  | nil =>
    intro id b rest h
    rw [extractBlock] at h
    exact Option.noConfusion h
  | cons x xs ih =>
    intro id b rest h
    rw [extractBlock] at h
    by_cases hx : x.labelId = id
    · simp only [if_pos hx, Option.some.injEq, Prod.mk.injEq] at h
      obtain ⟨h1, h2⟩ := h
      subst h1
      subst h2
      exact ⟨List.Perm.refl _, hx⟩
    · simp only [if_neg hx] at h
      cases he : extractBlock xs id with
      | none => rw [he] at h; exact Option.noConfusion h
      | some p =>
        rw [he] at h
        simp only [Option.map_some', Option.some.injEq, Prod.mk.injEq] at h
        obtain ⟨h1, h2⟩ := h
        subst h1
        subst h2
        obtain ⟨hp1, hp2⟩ := ih id p.1 p.2 (he.trans rfl)
        refine ⟨?_, hp2⟩
        exact List.Perm.trans (List.Perm.cons x hp1) (List.Perm.swap p.1 x p.2)

/-- Re-inserting a block is a permutation. -/
theorem insertAfterLabel_perm :
    ∀ (l : List Block) (id : Nat) (nb : Block) (l2 : List Block),
      insertAfterLabel l id nb = some l2 → l2.Perm (nb :: l) := by
  intro l
  induction l with
  | nil =>
    intro id nb l2 h
    rw [insertAfterLabel] at h
    exact Option.noConfusion h
  | cons x xs ih =>
    intro id nb l2 h
    rw [insertAfterLabel] at h
    by_cases hx : x.labelId = id
    · simp only [if_pos hx, Option.some.injEq] at h
      subst h
      exact List.Perm.swap nb x xs
    · simp only [if_neg hx] at h
      cases he : insertAfterLabel xs id nb with
      | none => rw [he] at h; exact Option.noConfusion h
      | some l3 =>
        rw [he] at h
        simp only [Option.map_some', Option.some.injEq] at h
        subst h
        exact List.Perm.trans (List.Perm.cons x (ih id nb l3 he))
          (List.Perm.swap nb x xs)

/-- `MoveBasicBlockToAfter` permutes the block list without changing any
block. -/
theorem moveBlockAfter_perm (f : FunctionIR) (x a : Nat) (f1 : FunctionIR)
    (h : moveBlockAfter f x a = some f1) : f1.blocks.Perm f.blocks := by
  rw [moveBlockAfter] at h
  cases he : extractBlock f.blocks x with
  | none => rw [he] at h; exact Option.noConfusion h
  | some p =>
    simp only [he] at h
    cases hi : insertAfterLabel p.2 a p.1 with
    | none => simp only [hi] at h; exact Option.noConfusion h
    | some blocks2 =>
      simp only [hi, Option.some.injEq] at h
      subst h
      simp only
      exact List.Perm.trans (insertAfterLabel_perm p.2 a p.1 blocks2 hi)
        (extractBlock_perm f.blocks x p.1 p.2 he).1.symm

/-- With distinct labels, block lookup is invariant under permutation. -/
theorem findBlock_perm_nodup (l1 l2 : List Block) (hp : l1.Perm l2)
    (hnd : (l2.map Block.labelId).Nodup) (id : Nat) :
    l1.find? (fun b => b.labelId == id) = l2.find? (fun b => b.labelId == id) := by
  cases h2 : l2.find? (fun b => b.labelId == id) with
  | none =>
    rw [List.find?_eq_none] at h2 ⊢
    intro x hx
    exact h2 x (hp.mem_iff.mp hx)
  | some b =>
    have hbmem : b ∈ l2 := List.mem_of_find?_eq_some h2
    have hbp := List.find?_some h2
    have hsome : (l1.find? (fun b => b.labelId == id)).isSome := by
      rw [List.find?_isSome]
      exact ⟨b, hp.mem_iff.mpr hbmem, hbp⟩
    obtain ⟨c, hc⟩ := Option.isSome_iff_exists.mp hsome
    have hcmem : c ∈ l2 := hp.mem_iff.mp (List.mem_of_find?_eq_some hc)
    have hcp := List.find?_some hc
    have hcb : c = b := by
      refine List.inj_on_of_nodup_map hnd hcmem hbmem ?_
      simp only [beq_iff_eq] at hbp hcp
      rw [hcp, hbp]
    rw [hc, hcb]

/-- The guarded convergence walk of the region check agrees with the
unguarded one of `Apply` whenever the former succeeds. -/
theorem convergenceLoop_applyConvLoop (f : FunctionIR) (hdr : Nat) :
    ∀ (fuel s c : Nat), convergenceLoop f hdr s fuel = some (some c) →
      applyConvLoop f s fuel = some c := by
  intro fuel
  induction fuel with
  | zero =>
    intro s c h
    rw [convergenceLoop] at h
    exact Option.noConfusion h
  | succ n ih =>
    intro s c h
    rw [convergenceLoop] at h
    rw [applyConvLoop]
    by_cases hl : (f.predsOf s).length = 1
    · simp only [if_pos hl] at h ⊢
      by_cases hs : s = hdr
      · simp only [if_pos hs] at h
        simp at h
      · simp only [if_neg hs] at h
        cases hp : (f.predsOf s)[0]? with
        | none => simp only [hp] at h; exact Option.noConfusion h
        | some p =>
          simp only [hp] at h ⊢
          exact ih p c h
    · simp only [if_neg hl] at h ⊢
      simp only [Option.some.injEq] at h
      rw [h]

/-- Along a clean chain the walk of `Apply` only permutes blocks: the fact
store and overflow count are untouched, and the recorded last true-branch
block, if new, is a merge-free block of the original function off the
convergence point. -/
theorem flattenWalk_clean (m : ModuleIR) (oracle : FlattenOracle)
    (mapping : List (InstrRef × List Nat)) (overflow : List Nat)
    (conv cond : Nat) (isTrue : Bool) (f : FunctionIR)
    (hnd : (f.blocks.map Block.labelId).Nodup) :
    ∀ (fuel start anchorLabel : Nat) (st st2 : FWState),
      st.f.blocks.Perm f.blocks →
      cleanChain oracle f conv start fuel = true →
      flattenWalk m oracle mapping overflow conv cond isTrue fuel start
        anchorLabel st = some st2 →
      st2.f.blocks.Perm f.blocks ∧ st2.fm = st.fm ∧
        st2.overflowUsed = st.overflowUsed ∧
        (st2.lastTrue = st.lastTrue ∨ ∃ lt bl, st2.lastTrue = some lt ∧
          lt ≠ conv ∧ f.findBlock lt = some bl ∧ bl.mergeInst = none) := by
  intro fuel
  induction fuel with
  | zero =>
    intro start anchorLabel st st2 hperm hclean h
    rw [flattenWalk] at h
    exact Option.noConfusion h
  | succ n ih =>
    intro start anchorLabel st st2 hperm hclean h
    rw [flattenWalk] at h
    by_cases hs : start = conv
    · simp only [if_pos hs, Option.some.injEq] at h
      subst h
      exact ⟨hperm, rfl, rfl, Or.inl rfl⟩
    · simp only [if_neg hs] at h
      rw [cleanChain] at hclean
      simp only [if_neg hs] at hclean
      cases hfb : f.findBlock start with
      | none => simp only [hfb] at hclean; exact absurd hclean (by simp)
      | some b =>
        simp only [hfb] at hclean
        simp only [Bool.and_eq_true] at hclean
        obtain ⟨⟨hmn, hfe⟩, hrest⟩ := hclean
        cases hmv : moveBlockAfter st.f start anchorLabel with
        | none => simp only [hmv] at h; exact Option.noConfusion h
        | some f1 =>
          simp only [hmv] at h
          have hperm1 : f1.blocks.Perm f.blocks :=
            (moveBlockAfter_perm st.f start anchorLabel f1 hmv).trans hperm
          have hfb1 : f1.findBlock start = some b := by
            rw [FunctionIR.findBlock,
              findBlock_perm_nodup f1.blocks f.blocks hperm1 hnd start]
            exact hfb
          simp only [hfb1] at h
          cases ht : b.termInst with
          | none => simp only [ht] at hrest; exact absurd hrest (by simp)
          | some t =>
            simp only [ht] at h hrest
            cases hop : t.operands[0]? with
            | none => simp only [hop] at hrest; exact absurd hrest (by simp)
            | some succ =>
              simp only [hop] at h hrest
              have hprobs : b.insts.enum.filter (fun p =>
                  p.2.opcode ≠ .OpLabel && p.2.opcode ≠ .OpBranch &&
                    !(oracle.hasNoSideEffects p.2)) = [] := by
                simpa [List.isEmpty_iff] using hfe
              simp only [hprobs] at h
              rw [flattenEncloseAll] at h
              simp only at h
              obtain ⟨hq1, hq2, hq3, hq4⟩ := ih succ start
                ⟨f1, st.fm, st.overflowUsed,
                  if succ = conv && isTrue then some start else st.lastTrue⟩
                st2 hperm1 hrest h
              refine ⟨hq1, hq2, hq3, ?_⟩
              by_cases hcc : (succ = conv && isTrue) = true
              · rcases hq4 with hq4 | hq4
                · right
                  refine ⟨start, b, ?_, hs, hfb, ?_⟩
                  · rw [hq4]
                    exact if_pos hcc
                  · exact Option.isNone_iff_eq_none.mp hmn
                · right
                  exact hq4
              · rcases hq4 with hq4 | hq4
                · left
                  rw [hq4]
                  exact if_neg hcc
                · right
                  exact hq4

/-- `mapPhiPrefix` maps every instruction of the leading `OpPhi` run,
position by position. -/
theorem mapPhiPrefix_getElem (g : Instruction → Instruction) :
    ∀ (insts : List Instruction) (i : Nat) (phi : Instruction),
      insts[i]? = some phi → phi.opcode = .OpPhi →
      (∀ j, j < i → ∀ q, insts[j]? = some q → q.opcode = .OpPhi) →
      (mapPhiPrefix g insts)[i]? = some (g phi) := by
  intro insts
  induction insts with
  | nil => intro i phi h; simp at h
  | cons x rest ih =>
    intro i phi h hphi hpre
    cases i with
    | zero =>
      simp only [List.getElem?_cons_zero, Option.some.injEq] at h
      subst h
      rw [mapPhiPrefix]
      simp [hphi]
    | succ j =>
      simp only [List.getElem?_cons_succ] at h
      have hx : x.opcode = .OpPhi :=
        hpre 0 (Nat.succ_pos j) x (by simp)
      rw [mapPhiPrefix]
      simp only [hx, beq_self_eq_true, if_pos, List.getElem?_cons_succ]
      exact ih j phi h hphi (fun k hk q hq =>
        hpre (k + 1) (Nat.succ_lt_succ hk) q (by simpa using hq))

/-- Dropping the last two elements of `l ++ [a, b]` gives back `l`. -/
theorem dropLast_two_append (l : List Instruction) (a b : Instruction) :
    (l ++ [a, b]).dropLast.dropLast = l := by
  have h : l ++ [a, b] = (l ++ [a]) ++ [b] := by simp
  rw [h, List.dropLast_concat, List.dropLast_concat]

/-- The last element of `l ++ [a, b]` is `b`. -/
theorem getLast_two_append (l : List Instruction) (a b : Instruction) :
    (l ++ [a, b]).getLast? = some b := by
  have h : l ++ [a, b] = (l ++ [a]) ++ [b] := by simp
  rw [h, List.getLast?_concat]

/-- A block whose instructions end in a single non-merge instruction after a
merge-free prefix has no merge instruction. -/
theorem mergeInst_append_single (l : List Instruction) (b : Instruction)
    (hl : ∀ q ∈ l, q.opcode ≠ .OpSelectionMerge ∧ q.opcode ≠ .OpLoopMerge) :
    (Block.mk 0 (l ++ [b])).mergeInst = none := by
  rw [Block.mergeInst]
  simp only [List.reverse_append, List.reverse_cons, List.reverse_nil,
    List.nil_append, List.cons_append]
  cases hr : l.reverse with
  | nil => simp [hr]
  | cons x tl =>
    simp only [hr]
    have hx : x ∈ l := by
      rw [← List.mem_reverse, hr]
      simp
    obtain ⟨h1, h2⟩ := hl x hx
    simp [h1, h2]

/-- `mergeInst` is `none` for a block of merge-free instructions followed by
a single terminator. -/
theorem mergeInst_of_insts (bl : Block) (l : List Instruction)
    (b : Instruction) (hins : bl.insts = l ++ [b])
    (hl : ∀ q ∈ l, q.opcode ≠ .OpSelectionMerge ∧ q.opcode ≠ .OpLoopMerge) :
    bl.mergeInst = none := by
  have : bl.mergeInst = (Block.mk 0 (l ++ [b])).mergeInst := by
    rw [Block.mergeInst, Block.mergeInst, hins]
  rw [this]
  exact mergeInst_append_single l b hl

/-- The terminator of a block whose instructions are `l ++ [b]` is `b`. -/
theorem termInst_of_append (bl : Block) (l : List Instruction)
    (b : Instruction) (hins : bl.insts = l ++ [b]) :
    bl.termInst = some b := by
  rw [Block.termInst, hins, List.getLast?_concat]

theorem getElem_one_of_drop_take (l : List Nat) (v : Nat)
    (h : l[1]? = some v) : ((l.drop 1).take 2)[0]? = some v := by
  rw [List.getElem?_take, if_pos (by omega : (0 : Nat) < 2)]
  rw [List.getElem?_drop]
  simpa using h

theorem getElem_two_of_drop_take (l : List Nat) (v : Nat)
    (h : l[2]? = some v) : ((l.drop 1).take 2)[1]? = some v := by
  rw [List.getElem?_take, if_pos (by omega : (1 : Nat) < 2)]
  rw [List.getElem?_drop]
  simpa using h

/-- A found block carries the label it was looked up by. -/
theorem findBlock_labelId (f : FunctionIR) (id : Nat) (b : Block)
    (h : f.findBlock id = some b) : b.labelId = id := by
  have := List.find?_some h
  simpa using this

/-- Indexing success implies membership. -/
theorem mem_of_getElem_opt {α : Type} (l : List α) (i : Nat) (a : α)
    (h : l[i]? = some a) : a ∈ l := by
  obtain ⟨hlt, rfl⟩ := List.getElem?_eq_some_iff.mp h
  exact List.getElem_mem hlt

/-- The successors of a conditional branch are its second and third
operands. -/
theorem successors_branch_cond (i : Instruction)
    (h : i.opcode = .OpBranchConditional) :
    i.successors = (i.operands.drop 1).take 2 := by
  obtain ⟨op, a, b, ops⟩ := i
  change op = _ at h
  subst h
  rfl

/-- C6: for a selection header whose true/false region is side-effect-free
(the region check collects no needs-ids instructions) and
single-entry/single-exit (the region check succeeds), `IsApplicable` returns
true; and when `Apply` succeeds, the rewritten header block ends in a single
unconditional branch (one successor, no conditional branch, no merge
marker), and the leading `OpPhi` run of the convergence block has been
rewritten position by position into `OpSelect` instructions over the
original condition whose value operands are exactly the phi's value
operands. -/
theorem claim_C6_flatten_correct
    (m : ModuleIR) (oracle : FlattenOracle) (msg : FlattenMsg) (fuel : Nat)
    (fm : DeadBlockFacts) (f : FunctionIR) (header_block : Block)
    (mi term : Instruction) (hpre : List Instruction)
    (mergeId convId : Nat) (conv_block : Block)
    (condition_id first_true first_false : Nat)
    (f2 : FunctionIR) (fm2 : DeadBlockFacts)
    (h1 : m.maybeFindBlock msg.header_block_id = some (f, header_block))
    (h1b : f.findBlock msg.header_block_id = some header_block)
    (hnd : (f.blocks.map Block.labelId).Nodup)
    (hH : header_block.insts = hpre ++ [mi, term])
    (hhp : ∀ q ∈ hpre, q.opcode ≠ .OpSelectionMerge ∧ q.opcode ≠ .OpLoopMerge)
    (h2 : header_block.mergeInst = some mi)
    (h3 : mi.opcode = .OpSelectionMerge)
    (h4 : header_block.termInst = some term)
    (h5 : term.opcode = .OpBranchConditional)
    (hmi0 : mi.operands[0]? = some mergeId)
    (hc : term.operands[0]? = some condition_id)
    (ht : term.operands[1]? = some first_true)
    (hf : term.operands[2]? = some first_false)
    (h6 : conditionalCanBeFlattened m oracle f header_block fuel
      = some (true, []))
    (h7 : flattenCheckFreshIds m msg (getInstructionsToFreshIdsMapping m msg)
      = true)
    (hcl : applyConvLoop f mergeId fuel = some convId)
    (hne : convId ≠ msg.header_block_id)
    (hcb : f.findBlock convId = some conv_block)
    (happly : applyFlatten m oracle fm msg fuel = some (f2, fm2)) :
    isApplicableFlatten m oracle msg fuel = some true ∧
    (∃ tgt hb2, f2.findBlock msg.header_block_id = some hb2 ∧
      hb2.insts = hpre ++ [(⟨.OpBranch, 0, 0, [tgt]⟩ : Instruction)] ∧
      hb2.termInst = some (⟨.OpBranch, 0, 0, [tgt]⟩ : Instruction) ∧
      (⟨.OpBranch, 0, 0, [tgt]⟩ : Instruction).successors = [tgt] ∧
      hb2.mergeInst = none) ∧
    f2.findBlock convId =
      some ⟨convId, mapPhiPrefix (phiToSelect condition_id) conv_block.insts⟩ ∧
    (∀ (i : Nat) (phi : Instruction), conv_block.insts[i]? = some phi →
      phi.opcode = .OpPhi →
      (∀ (j : Nat), j < i → ∀ (q : Instruction),
        conv_block.insts[j]? = some q → q.opcode = .OpPhi) →
      (mapPhiPrefix (phiToSelect condition_id) conv_block.insts)[i]? =
        some (⟨.OpSelect, phi.typeId, phi.resultId,
          condition_id :: evenOps phi.operands⟩ : Instruction)) := by
  have hlab : header_block.labelId = msg.header_block_id :=
    findBlock_labelId f msg.header_block_id header_block h1b
  have hconvlab : conv_block.labelId = convId :=
    findBlock_labelId f convId conv_block hcb
  -- invert the region check down to the breadth-first search
  have hbfs : flattenBfs m oracle f convId
      ((term.operands.drop 1).take 2) [] fuel = some (true, []) := by
    rw [conditionalCanBeFlattened] at h6
    simp only [h2, hmi0] at h6
    cases hcv : convergenceLoop f header_block.labelId mergeId fuel with
    | none => rw [hcv] at h6; exact absurd h6 (by simp)
    | some o =>
      rw [hcv] at h6
      cases o with
      | none => simp at h6
      | some c6 =>
        simp only at h6
        have hc6 : c6 = convId := by
          have hd := convergenceLoop_applyConvLoop f header_block.labelId
            fuel mergeId c6 hcv
          rw [hcl] at hd
          exact (Option.some.inj hd).symm
        rw [hc6] at h6
        by_cases hdom : (!(oracle.dominates header_block.labelId convId &&
            oracle.postdominates convId header_block.labelId)) = true
        · rw [if_pos hdom] at h6
          simp at h6
        · rw [if_neg hdom] at h6
          rw [h4] at h6
          simp only [Option.map_some', Option.getD_some,
            successors_branch_cond term h5] at h6
          exact h6
  have hmem_t : first_true ∈ (term.operands.drop 1).take 2 := by
    have := getElem_one_of_drop_take term.operands first_true ht
    exact mem_of_getElem_opt _ _ _ this
  have hmem_f : first_false ∈ (term.operands.drop 1).take 2 := by
    have := getElem_two_of_drop_take term.operands first_false hf
    exact mem_of_getElem_opt _ _ _ this
  have hclean_t : cleanChain oracle f convId first_true fuel = true :=
    flattenBfs_cleanChain m oracle f convId fuel _ [] hbfs first_true hmem_t
  have hclean_f : cleanChain oracle f convId first_false fuel = true :=
    flattenBfs_cleanChain m oracle f convId fuel _ [] hbfs first_false hmem_f
  -- the applicability conclusion
  have conclA : isApplicableFlatten m oracle msg fuel = some true := by
    rw [isApplicableFlatten]
    simp only [h1, h2, h3, h4, h5, h6, h7]
    simp only [ne_eq, not_true_eq_false, if_false, Bool.not_true,
      Bool.false_eq_true, reduceIte]
    rfl
  -- invert Apply
  rw [applyFlatten] at happly
  simp only [h1, h2, hmi0, hcl, h4, hc, ht, hf] at happly
  cases hw1 : flattenWalk m oracle (getInstructionsToFreshIdsMapping m msg)
      msg.overflow_id convId condition_id false fuel first_false
      msg.header_block_id ⟨f, fm, 0, none⟩ with
  | none => rw [hw1] at happly; exact Option.noConfusion happly
  | some st1 =>
    simp only [hw1] at happly
    obtain ⟨hw1a, hw1b, hw1c, hw1d⟩ := flattenWalk_clean m oracle
      (getInstructionsToFreshIdsMapping m msg) msg.overflow_id convId
      condition_id false f hnd fuel first_false msg.header_block_id
      ⟨f, fm, 0, none⟩ st1 (List.Perm.refl _) hclean_f hw1
    cases hw2 : flattenWalk m oracle (getInstructionsToFreshIdsMapping m msg)
        msg.overflow_id convId condition_id true fuel first_true
        msg.header_block_id st1 with
    | none => rw [hw2] at happly; exact Option.noConfusion happly
    | some st2 =>
      simp only [hw2] at happly
      obtain ⟨hw2a, hw2b, hw2c, hw2d⟩ := flattenWalk_clean m oracle
        (getInstructionsToFreshIdsMapping m msg) msg.overflow_id convId
        condition_id true f hnd fuel first_true msg.header_block_id
        st1 st2 hw1a hclean_t hw2
      have hfh : st2.f.findBlock msg.header_block_id = some header_block := by
        rw [FunctionIR.findBlock,
          findBlock_perm_nodup st2.f.blocks f.blocks hw2a hnd]
        exact h1b
      simp only [hfh] at happly
      have hgl : header_block.insts.getLast? = some term := by
        rw [hH]
        exact getLast_two_append hpre mi term
      simp only [hgl, h2, beq_self_eq_true, Option.isSome_some,
        Bool.and_self, if_true] at happly
      set g1 : List Instruction → List Instruction := fun insts =>
        insts.dropLast.dropLast ++
          [(⟨.OpBranch, 0, 0,
            [if first_true ≠ convId then first_true else first_false]⟩ :
            Instruction)] with hg1def
      have hf3h : (updBlockInstsF st2.f msg.header_block_id g1).findBlock
          msg.header_block_id
          = some ⟨msg.header_block_id,
              hpre ++ [(⟨.OpBranch, 0, 0,
                [if first_true ≠ convId then first_true else first_false]⟩ :
                Instruction)]⟩ := by
        rw [updBlockInstsF, findBlock_updated, hfh]
        simp only [Option.map_some', hg1def]
        rw [hH, dropLast_two_append, hlab]
      have hf3c : (updBlockInstsF st2.f msg.header_block_id g1).findBlock convId
          = some conv_block := by
        rw [updBlockInstsF, findBlock_updated_ne _ _ _ hne, FunctionIR.findBlock,
          findBlock_perm_nodup st2.f.blocks f.blocks hw2a hnd]
        exact hcb
      cases hlt : st2.lastTrue with
      | none =>
        simp only [hlt] at happly
        simp only [hf3c] at happly
        simp only [Option.some.injEq, Prod.mk.injEq] at happly
        obtain ⟨hf2, hfm2⟩ := happly
        subst hf2
        refine ⟨conclA, ?_, ?_, ?_⟩
        · refine ⟨(if first_true ≠ convId then first_true else first_false),
            ⟨msg.header_block_id, hpre ++ [(⟨.OpBranch, 0, 0,
              [if first_true ≠ convId then first_true else first_false]⟩ :
              Instruction)]⟩, ?_, rfl, ?_, rfl, ?_⟩
          · rw [updBlockInstsF, findBlock_updated_ne _ _ _ (Ne.symm hne)]
            exact hf3h
          · exact termInst_of_append _ hpre _ rfl
          · exact mergeInst_of_insts _ hpre _ rfl hhp
        · rw [updBlockInstsF, findBlock_updated, hf3c]
          simp only [Option.map_some', hconvlab]
        · intro i phi hi hphi hjs
          exact mapPhiPrefix_getElem (phiToSelect condition_id)
            conv_block.insts i phi hi hphi hjs
      | some lt =>
        have hltf : ∃ bl, lt ≠ convId ∧ f.findBlock lt = some bl ∧
            bl.mergeInst = none := by
          rcases hw2d with hEq | ⟨ltp, bl, hltp, hcp, hfbp, hmp⟩
          · rw [hlt] at hEq
            rcases hw1d with hEq2 | ⟨ltp, bl, hltp, hcp, hfbp, hmp⟩
            · simp only at hEq2
              rw [hEq2] at hEq
              exact Option.noConfusion hEq
            · rw [hltp] at hEq
              obtain rfl := Option.some.inj hEq
              exact ⟨bl, hcp, hfbp, hmp⟩
          · rw [hlt] at hltp
            obtain rfl := Option.some.inj hltp
            exact ⟨bl, hcp, hfbp, hmp⟩
        obtain ⟨bl, hltc, hlfb, hlm⟩ := hltf
        have hlthdr : lt ≠ msg.header_block_id := by
          intro hcontra
          rw [hcontra, h1b] at hlfb
          obtain rfl := Option.some.inj hlfb
          rw [h2] at hlm
          exact Option.noConfusion hlm
        simp only [hlt] at happly
        have hfl3 : (updBlockInstsF st2.f msg.header_block_id g1).findBlock lt
            = some bl := by
          rw [updBlockInstsF, findBlock_updated_ne _ _ _ hlthdr,
            FunctionIR.findBlock,
            findBlock_perm_nodup st2.f.blocks f.blocks hw2a hnd]
          exact hlfb
        simp only [hfl3] at happly
        cases hltt : bl.insts.getLast? with
        | none => simp only [hltt] at happly; exact Option.noConfusion happly
        | some ltt =>
          simp only [hltt] at happly
          have hf4c : (updBlockInstsF
              (updBlockInstsF st2.f msg.header_block_id g1) lt
              (fun insts => insts.dropLast ++
                [(⟨ltt.opcode, ltt.typeId, ltt.resultId,
                  ltt.operands.set 0 first_false⟩ : Instruction)])).findBlock
              convId = some conv_block := by
            rw [updBlockInstsF, findBlock_updated_ne _ _ _ (Ne.symm hltc)]
            exact hf3c
          simp only [hf4c] at happly
          simp only [Option.some.injEq, Prod.mk.injEq] at happly
          obtain ⟨hf2, hfm2⟩ := happly
          subst hf2
          refine ⟨conclA, ?_, ?_, ?_⟩
          · refine ⟨(if first_true ≠ convId then first_true else first_false),
              ⟨msg.header_block_id, hpre ++ [(⟨.OpBranch, 0, 0,
                [if first_true ≠ convId then first_true else first_false]⟩ :
                Instruction)]⟩, ?_, rfl, ?_, rfl, ?_⟩
            · rw [updBlockInstsF, findBlock_updated_ne _ _ _ (Ne.symm hne),
                updBlockInstsF, findBlock_updated_ne _ _ _ (Ne.symm hlthdr)]
              exact hf3h
            · exact termInst_of_append _ hpre _ rfl
            · exact mergeInst_of_insts _ hpre _ rfl hhp
          · rw [updBlockInstsF, findBlock_updated, hf4c]
            simp only [Option.map_some', hconvlab]
          · intro i phi hi hphi hjs
            exact mapPhiPrefix_getElem (phiToSelect condition_id)
              conv_block.insts i phi hi hphi hjs

/-- Witness for C6 on `flModule`: the flattening applies, and block 53 of
the result holds the select-converted phi run. -/
theorem claim_C6_flatten_correct_witness :
    isApplicableFlatten flModule flOracle flMsg 20 = some true ∧
    flFunctionFlat.findBlock 53 =
      some ⟨53, mapPhiPrefix (phiToSelect 95)
        [⟨.OpPhi, 1, 60, [12, 51, 13, 52]⟩, ⟨.OpReturn, 0, 0, []⟩]⟩ := by
  have h := claim_C6_flatten_correct flModule flOracle flMsg 20 ⟨[]⟩
    flFunction
    ⟨50, [⟨.OpSelectionMerge, 0, 0, [53]⟩,
          ⟨.OpBranchConditional, 0, 0, [95, 51, 52]⟩]⟩
    ⟨.OpSelectionMerge, 0, 0, [53]⟩
    ⟨.OpBranchConditional, 0, 0, [95, 51, 52]⟩
    [] 53 53
    ⟨53, [⟨.OpPhi, 1, 60, [12, 51, 13, 52]⟩, ⟨.OpReturn, 0, 0, []⟩]⟩
    95 51 52 flFunctionFlat ⟨[]⟩
    (by decide) (by decide) (by decide) (by decide) (by decide) (by decide)
    (by decide) (by decide) (by decide) (by decide) (by decide) (by decide)
    (by decide) (by decide) (by decide) (by decide) (by decide) (by decide)
    (by decide)
  exact ⟨h.1, h.2.2.1⟩

/-- The sequential pool consumption of `flattenSupplyCheck` is equivalent to:
every explicit list long enough, and the total unmapped requirement within
the pool. -/
theorem flattenSupplyCheck_characterization (m : ModuleIR)
    (mapping : List (InstrRef × List Nat)) :
    ∀ (refs : List InstrRef) (pool : Nat),
      (∀ r ∈ refs, (m.findInstruction r).isSome) →
      flattenSupplyCheck m mapping refs pool
        = some (mappedListsSufficient m mapping refs
            && decide (unmappedNeedSum m mapping refs ≤ pool)) := by
  intro refs
  induction refs with
  | nil =>
      intro pool _
      simp [flattenSupplyCheck, mappedListsSufficient, unmappedNeedSum]
  | cons r rest ih =>
    intro pool hall
    have hr : (m.findInstruction r).isSome := hall r (by simp)
    obtain ⟨inst, hinst⟩ := Option.isSome_iff_exists.mp hr
    have hrest : ∀ x ∈ rest, (m.findInstruction x).isSome :=
      fun x hx => hall x (by simp [hx])
    have hneed : neededOf m r = numOfFreshIdsNeededByInstruction m inst := by
      simp [neededOf, hinst]
    rw [flattenSupplyCheck]
    simp only [hinst]
    cases hml : mappingLookup mapping r with
    | some ids =>
      by_cases hlen : ids.length < numOfFreshIdsNeededByInstruction m inst
      · simp only [if_pos hlen]
        rw [mappedListsSufficient]
        simp [hml, hneed, Nat.not_le.mpr hlen]
      · simp only [if_neg hlen]
        rw [ih pool hrest]
        rw [mappedListsSufficient, unmappedNeedSum]
        simp [hml, hneed, Nat.not_lt.mp hlen]
    | none =>
      by_cases hlen : pool < numOfFreshIdsNeededByInstruction m inst
      · simp only [if_pos hlen]
        have hsum : ¬ (unmappedNeedSum m mapping (r :: rest) ≤ pool) := by
          rw [unmappedNeedSum]
          simp only [hml]
          rw [hneed]
          omega
        simp [hsum]
      · simp only [if_neg hlen]
        rw [ih (pool - numOfFreshIdsNeededByInstruction m inst) hrest]
        rw [mappedListsSufficient, unmappedNeedSum]
        simp only [hml, Bool.true_and]
        congr 1
        have hle := Nat.not_lt.mp hlen
        rw [hneed]
        have : (numOfFreshIdsNeededByInstruction m inst +
            unmappedNeedSum m mapping rest ≤ pool) ↔
            (unmappedNeedSum m mapping rest ≤
              pool - numOfFreshIdsNeededByInstruction m inst) := by omega
        simp [this]

/-- C7: each handleable side-effecting instruction of the region needs
exactly 2 fresh ids when it has no result id or a void result, and 5 when its
result type is non-void; and once the structural checks pass (header found,
selection merge, conditional terminator, region flattenable with
side-effecting set `needs`, fresh ids fresh and distinct, every collected
reference resolving), `IsApplicable` returns true exactly when every explicit
per-instruction list covers its instruction's requirement and the shared
overflow pool covers the total requirement of the instructions without an
explicit list. -/
theorem claim_C7_fresh_id_requirements (m : ModuleIR) (oracle : FlattenOracle)
    (msg : FlattenMsg) (fuel : Nat) (f : FunctionIR) (header_block : Block)
    (mi term : Instruction) (needs : List InstrRef)
    (h1 : m.maybeFindBlock msg.header_block_id = some (f, header_block))
    (h2 : header_block.mergeInst = some mi)
    (h3 : mi.opcode = .OpSelectionMerge)
    (h4 : header_block.termInst = some term)
    (h5 : term.opcode = .OpBranchConditional)
    (h6 : conditionalCanBeFlattened m oracle f header_block fuel
      = some (true, needs))
    (h7 : flattenCheckFreshIds m msg (getInstructionsToFreshIdsMapping m msg)
      = true)
    (h8 : ∀ r ∈ needs, (m.findInstruction r).isSome) :
    (∀ inst : Instruction, inst.hasResultId = false →
      numOfFreshIdsNeededByInstruction m inst = 2) ∧
    (∀ inst : Instruction, ∀ t : Ty, inst.hasResultId = true →
      lookupA m.types inst.typeId = some t →
      numOfFreshIdsNeededByInstruction m inst = (if t.isVoid then 2 else 5)) ∧
    isApplicableFlatten m oracle msg fuel
      = some (mappedListsSufficient m (getInstructionsToFreshIdsMapping m msg)
            needs
          && decide (unmappedNeedSum m (getInstructionsToFreshIdsMapping m msg)
              needs ≤ msg.overflow_id.length)) := by
  refine ⟨?_, ?_, ?_⟩
  · intro inst h
    simp [numOfFreshIdsNeededByInstruction, h]
  · intro inst t hres hty
    simp [numOfFreshIdsNeededByInstruction, hres, hty]
  · rw [isApplicableFlatten]
    simp only [h1, h2, h3, h4, h5, h6, h7]
    simp only [ne_eq, not_true_eq_false, if_false, Bool.not_true,
      Bool.false_eq_true, reduceIte]
    exact flattenSupplyCheck_characterization m
      (getInstructionsToFreshIdsMapping m msg) needs msg.overflow_id.length h8

/-- Witness for C7 on the store-carrying example: the region's one
side-effecting instruction is the `OpStore` at position 0 of block 51, it has
no explicit list, its requirement is 2, and with overflow pool
`[400, 401]` the applicability check succeeds. -/
theorem claim_C7_fresh_id_requirements_witness :
    conditionalCanBeFlattened flModuleStore flOracleStore flFunctionStore
      ⟨50, [⟨.OpSelectionMerge, 0, 0, [53]⟩,
            ⟨.OpBranchConditional, 0, 0, [95, 51, 52]⟩]⟩ 20
      = some (true, [⟨51, 0⟩]) ∧
    isApplicableFlatten flModuleStore flOracleStore ⟨50, [], [400, 401]⟩ 20
      = some (mappedListsSufficient flModuleStore
            (getInstructionsToFreshIdsMapping flModuleStore ⟨50, [], [400, 401]⟩)
            [⟨51, 0⟩]
          && decide (unmappedNeedSum flModuleStore
              (getInstructionsToFreshIdsMapping flModuleStore
                ⟨50, [], [400, 401]⟩) [⟨51, 0⟩] ≤ 2)) :=
  ⟨by decide,
   (claim_C7_fresh_id_requirements flModuleStore flOracleStore
      ⟨50, [], [400, 401]⟩ 20 flFunctionStore
      ⟨50, [⟨.OpSelectionMerge, 0, 0, [53]⟩,
            ⟨.OpBranchConditional, 0, 0, [95, 51, 52]⟩]⟩
      ⟨.OpSelectionMerge, 0, 0, [53]⟩
      ⟨.OpBranchConditional, 0, 0, [95, 51, 52]⟩ [⟨51, 0⟩]
      (by decide) (by decide) (by decide) (by decide) (by decide) (by decide)
      (by decide) (by decide)).2.2⟩

/-- Witness for C10: enclosing the `OpStore` of the dead block 51 with fresh
ids 300 and 301 marks both new blocks dead and keeps 51 dead. -/
theorem claim_C10_dead_block_propagation_witness :
    (encFmC10.BlockIsDead 51 = true →
      encFm2C10.BlockIsDead 300 = true ∧ encFm2C10.BlockIsDead 301 = true ∧
      (numOfFreshIdsNeededByInstruction flModuleStore
          ⟨.OpStore, 0, 0, [16, 12]⟩ = 5 →
        ∀ id2, ([300, 301] : List Nat)[2]? = some id2 →
          encFm2C10.BlockIsDead id2 = true) ∧
      (∀ id, encFmC10.BlockIsDead id = true →
        encFm2C10.BlockIsDead id = true)) ∧
    (encFmC10.BlockIsDead 51 = false → encFm2C10 = encFmC10) :=
  claim_C10_dead_block_propagation flModuleStore encFmC10 flFunctionStore 51
    ⟨.OpStore, 0, 0, [16, 12]⟩ [300, 301] 95 true encF2C10 encFm2C10 301
    (by decide) 300 301 (by decide) (by decide)

/-! ## ToMessage and replay reconstruction (the serialization records) -/

/-- C4: the spec says every variant's `ToMessage` record carries the variant
tag and all its ids, sufficing for a lossless behavioral round-trip, in
particular for merge-function-returns.  Replace-irrelevant-id does round-trip
losslessly, but merge-function-returns' `ToMessage` returns a
default-constructed record: every instance serializes to the same empty
record, no submessage can be read back from it, and the protobuf-default
instance it would yield behaves differently (its `IsApplicable` is false on
a module where the original's is true). -/
theorem claim_C4_to_message_not_lossless :
    (∀ msg : ReplaceIrrelevantIdMsg,
      replaceIrrelevantIdOfMessage (toMessageReplaceIrrelevantId msg) = some msg) ∧
    toMessageMergeFunctionReturns mrMsgGood = TransformationMessage.emptyMsg ∧
    (∀ msg msg2 : MergeReturnsMsg,
      toMessageMergeFunctionReturns msg = toMessageMergeFunctionReturns msg2) ∧
    (∀ msg : MergeReturnsMsg,
      mergeReturnsOfMessage (toMessageMergeFunctionReturns msg) = none) ∧
    isApplicableMergeReturns mrModule mrOracle (fun _ _ => true) mrMsgGood
      = some true ∧
    isApplicableMergeReturns mrModule mrOracle (fun _ _ => true) mrMsgDefault
      = some false := by
  exact ⟨fun _ => rfl, rfl, fun _ _ => rfl, fun _ => rfl, by decide, by decide⟩

end SpvFuzz
